import Mathlib

/-!
# TabSweep: the background service worker (`background.js`) and the settings page

A shallow embedding of the extension's background script; the part of the
settings page (`options.js`) that validates and stores the configuration
follows it.  The script is a
set of event listeners over one mutable `state` object and one `timers` map;
every listener runs to completion or suspends at an `await` on the browser's
tab API.  The embedding makes the event loop explicit:

* `World` holds the `state` object, the `timers` map, the browser's table of
  pending timeouts, the handlers suspended at an `await`, and the log of
  `chrome.tabs.remove` requests;
* `step` runs one task of the event loop (one listener call, one timeout
  expiry, or the resumption of one suspended handler).

Regular expressions and string-to-number parsing are services of the
JavaScript host; they are taken as a parameter (`Host`).
-/

namespace TabSweep

/-! ## JavaScript values -/

/-- A JavaScript number: NaN, the two infinities, or a finite double, given by
its exact value.  Arithmetic rounds its exact result to the nearest double
(`round`), as IEEE 754 prescribes; the sign of zero is not kept. -/
inductive JsNum where
  | nan
  | posInf
  | negInf
  | fin (q : ℚ)
  deriving DecidableEq, Repr

namespace JsNum

/-- Holds exactly when `Number.isFinite(x)` is true. -/
def isFinite : JsNum → Bool
  | fin _ => true
  | _ => false

/-- Holds exactly when `x > 0` is true. -/
def gtZero : JsNum → Bool
  | posInf => true
  | fin q => decide (0 < q)
  | _ => false

/-- Sign of a number that is not NaN: `1`, `0` or `-1`. -/
def sign : JsNum → Int
  | nan => 0
  | posInf => 1
  | negInf => -1
  | fin q => if 0 < q then 1 else if q < 0 then -1 else 0

/-- The negation `-x`. -/
def neg : JsNum → JsNum
  | nan => nan
  | posInf => negInf
  | negInf => posInf
  | fin q => fin (-q)

/-- The position of the leading binary digit of `n`: the largest `a` with
`2 ^ a ≤ n`, and `0` for `n < 2`.  The first argument bounds the recursion. -/
def log2 : Nat → Nat → Nat
  | 0, _ => 0
  | fuel + 1, n => if n < 2 then 0 else log2 fuel (n / 2) + 1

/-- The double nearest to the positive rational `n / d` (IEEE 754 binary64,
round to nearest, ties to even).  With `lead` the position of the leading
binary digit of `n / d`, the result is `m * 2 ^ e` for the exponent
`e = max (lead - 52) (-1074)` and the integer `m` nearest to `n / d / 2 ^ e`;
it is `Infinity` from `2 ^ 1024` on. -/
def roundPos (n d : Nat) : JsNum :=
  let k : Int := (log2 n n : Int) - (log2 d d : Int)
  let lead : Int := if d * 2 ^ k.toNat ≤ n * 2 ^ (-k).toNat then k else k - 1
  let e : Int := max (lead - 52) (-1074)
  let num := n * 2 ^ (-e).toNat
  let den := d * 2 ^ e.toNat
  let m0 := num / den
  let r := num % den
  let m := if 2 * r < den then m0 else if 2 * r = den ∧ m0 % 2 = 0 then m0 else m0 + 1
  if 971 < e ∨ (e = 971 ∧ m = 2 ^ 53) then posInf
  else fin (mkRat (m * 2 ^ e.toNat) (2 ^ (-e).toNat))

/-- The double nearest to the rational `q`. -/
def round (q : ℚ) : JsNum :=
  if q = 0 then fin 0
  else if 0 < q then roundPos q.num.toNat q.den
  else neg (roundPos (-q).num.toNat q.den)

/-- The double that a number stands for: a finite value is read as the double
nearest to it, so that a double is read as itself and a decimal such as 1.005
as a literal of the language is. -/
def toDouble : JsNum → JsNum
  | fin q => round q
  | x => x

/-- The product of two doubles: the double nearest to the exact product. -/
def mulDouble : JsNum → JsNum → JsNum
  | nan, _ => nan
  | _, nan => nan
  | fin a, fin b => round (a * b)
  | x, y =>
    if sign x * sign y = 0 then nan
    else if 0 < sign x * sign y then posInf else negInf

/-- The product `x * y`. -/
def mul (x y : JsNum) : JsNum :=
  mulDouble (toDouble x) (toDouble y)

end JsNum

/-- A value as it can come out of `chrome.storage`.  Of a plain object only
the names of its own properties matter to this program (the conversion to a
primitive looks up `toString`); the values of the properties, which are never
functions in stored data, are not inspected, so `obj` carries the names. -/
inductive JsVal where
  | undefined
  | null
  | bool (b : Bool)
  | num (x : JsNum)
  | str (s : String)
  | arr (xs : List JsVal)
  | obj (keys : List String)
  deriving Repr

mutual

/-- Whether the conversion of a stored value to a primitive throws a
`TypeError`.  A plain object is converted by its `valueOf` and `toString`
methods: the inherited `valueOf` returns the object itself, and an own
`toString` property, which is not callable, hides the inherited method, so
that no method yields a primitive.  An array is converted by joining the
strings of its elements, which converts every element but `undefined` and
`null`. -/
def toPrimitiveThrows : JsVal → Bool
  | .obj keys => keys.contains "toString"
  | .arr xs => anyThrows xs
  | _ => false

/-- Whether the conversion of one of the elements throws. -/
def anyThrows : List JsVal → Bool
  | [] => false
  | x :: xs => toPrimitiveThrows x || anyThrows xs

end

/-- The services of the JavaScript host that the script calls. -/
structure Host where
  /-- Whether `new RegExp(pattern)` returns (true) or throws (false). -/
  compiles : JsVal → Bool
  /-- The result of `rx.test(url)` for the expression built from `pattern`. -/
  test : JsVal → String → Bool
  /-- The result of `Number(v)` for a string `v`, and for an array `v` whose
  conversion to a string does not throw. -/
  stringToNumber : JsVal → JsNum

/-- The conversion `Number(v)`; `none` is a thrown `TypeError`.  An object
that converts to a primitive gives the string `[object Object]`, hence NaN. -/
def toNumber (H : Host) : JsVal → Option JsNum
  | .undefined => some .nan
  | .null => some (.fin 0)
  | .bool b => some (if b then .fin 1 else .fin 0)
  | .num x => some x
  | .str s => some (H.stringToNumber (.str s))
  | .arr xs =>
    if toPrimitiveThrows (.arr xs) then none else some (H.stringToNumber (.arr xs))
  | .obj keys => if toPrimitiveThrows (.obj keys) then none else some .nan

/-- The conversion `Boolean(v)`. -/
def toBoolean : JsVal → Bool
  | .undefined => false
  | .null => false
  | .bool b => b
  | .num .nan => false
  | .num (.fin q) => !(decide (q = 0))
  | .num _ => true
  | .str s => !(decide (s = ""))
  | .arr _ => true
  | .obj _ => true

/-! ## Tabs, configuration and the `state` object -/

abbrev TabId := Int

/-- The handle returned by `setTimeout`.  Handles are positive integers in the
browser, hence always truthy; the model numbers them from zero. -/
abbrev Handle := Nat

/-- The fields of a `chrome.tabs.Tab` that the script reads. -/
structure Tab where
  id : TabId
  url : Option String
  pinned : Bool
  active : Bool
  deriving DecidableEq, Repr

inductive Mode where
  | immediate
  | idle
  deriving DecidableEq, Repr

/-- The string stored in `state.mode`. -/
def Mode.toJs : Mode → JsVal
  | .immediate => .str "immediate"
  | .idle => .str "idle"

/-- The argument of `applyConfig`, before normalisation. -/
structure RawConfig where
  patterns : JsVal
  mode : JsVal
  delaySeconds : JsVal
  closeOnClick : JsVal

/-- The `state` object.  A compiled `RegExp` is identified by the pattern it
was built from (no flags are ever passed, so `test` keeps no position). -/
structure State where
  patterns : List JsVal
  regexes : List JsVal
  mode : Mode
  delaySeconds : JsNum
  closeOnClick : Bool

/-- The literal that initialises `state`. -/
def State.initial : State :=
  { patterns := [], regexes := [], mode := .immediate,
    delaySeconds := .fin 30, closeOnClick := false }

/-- The body of `updatePatterns`. -/
def updatePatterns (H : Host) (st : State) (patterns : JsVal) : State :=
  let ps : List JsVal :=
    match patterns with
    | .arr xs => xs
    | _ => []
  { st with patterns := ps, regexes := ps.filter H.compiles }

/-- The test `mode === 'idle'`. -/
def isIdleString : JsVal → Bool
  | .str s => s == "idle"
  | _ => false

/-- The body of `updateSettings`.  It assigns `state.mode` first; when
`Number(delaySeconds)` then throws, the call ends with the `TypeError` and
`error` holds the `state` at that point, otherwise `ok` holds the `state` at
the return. -/
def updateSettings (H : Host) (st : State) (mode delaySeconds closeOnClick : JsVal) :
    Except State State :=
  let st1 : State := { st with mode := if isIdleString mode then .idle else .immediate }
  match toNumber H delaySeconds with
  | none => .error st1
  | some parsed =>
    .ok { st1 with
      delaySeconds := if parsed.isFinite && parsed.gtZero then parsed else .fin 30
      closeOnClick := toBoolean closeOnClick }

/-- The `state` that a call leaves behind, whether it returned or threw. -/
def lastState : Except State State → State
  | .ok st => st
  | .error st => st

/-- The test `s.startsWith(p)`. -/
def startsWith (s p : String) : Bool :=
  p.toList.isPrefixOf s.toList

/-- The body of `shouldClose`; `none` is a missing (`null`) tab. -/
def shouldClose (H : Host) (st : State) (tab : Option Tab) : Bool :=
  match tab with
  | none => false
  | some t =>
    if t.pinned then false
    else
      let url := t.url.getD ""
      if !(startsWith url "http://") && !(startsWith url "https://") then false
      else st.regexes.any (fun rx => H.test rx url)

/-! ## The `timers` map and the browser's timeouts -/

/-- The `timers` map, in insertion order. -/
abbrev Timers := List (TabId × Handle)

namespace Timers

/-- The lookup `timers.has(k)`. -/
def has : Timers → TabId → Bool
  | [], _ => false
  | e :: m, k => e.1 == k || has m k

/-- The lookup `timers.get(k)`; `none` is `undefined`. -/
def get : Timers → TabId → Option Handle
  | [], _ => none
  | e :: m, k => if e.1 == k then some e.2 else get m k

/-- The update `timers.delete(k)`. -/
def delete : Timers → TabId → Timers
  | [], _ => []
  | e :: m, k => if e.1 == k then delete m k else e :: delete m k

/-- The update `timers.set(k, v)`: the value of an existing key is replaced
in place, a new key is appended. -/
def set : Timers → TabId → Handle → Timers
  | [], k, v => [(k, v)]
  | e :: m, k, v => if e.1 == k then (k, v) :: m else e :: set m k v

end Timers

/-- A timeout that the browser holds: the `tick` closure it will call is
determined by the `tabId` and `delayMs` it captured. -/
structure Timeout where
  handle : Handle
  tabId : TabId
  delayMs : JsNum
  deriving DecidableEq, Repr

/-- A handler suspended at an `await` on the tab API. -/
inductive Cont where
  /-- The callback `tick`, at `await chrome.tabs.get(tabId)`. -/
  | tick (tabId : TabId) (delayMs : JsNum)
  /-- The function `handleTab`, at `await chrome.tabs.get(tabId)`. -/
  | handleTab (tabId : TabId)
  /-- The `onActivated` listener, at `await chrome.tabs.get(tabId)`. -/
  | activated (tabId : TabId)
  /-- The function `runScanAllTabs`, at `await chrome.tabs.query`. -/
  | scan
  deriving DecidableEq, Repr

/-- The argument of `sendResponse`. -/
inductive ScanResponse where
  | ok
  | error
  deriving DecidableEq, Repr

/-- Everything the event loop can observe or change. -/
structure World where
  /-- The `state` object. -/
  state : State
  /-- The `timers` map. -/
  timers : Timers
  /-- The timeouts set and neither expired nor cleared. -/
  pending : List Timeout
  /-- The handlers suspended at an `await`. -/
  awaiting : List Cont
  /-- The tab ids passed to `chrome.tabs.remove`, oldest first. -/
  closes : List TabId
  /-- The answers sent to the popup, oldest first. -/
  responses : List ScanResponse
  /-- The handle that the next `setTimeout` returns. -/
  nextHandle : Handle

/-- The world when the script has just been loaded. -/
def World.initial : World :=
  { state := State.initial, timers := [], pending := [], awaiting := [],
    closes := [], responses := [], nextHandle := 0 }

/-- The call `clearTimeout(h)`. -/
def clearTimeout (pending : List Timeout) (h : Handle) : List Timeout :=
  pending.filter (fun t => t.handle != h)

/-- The call `setTimeout(tick, delayMs)` for the `tick` of `tabId`. -/
def setTimeout (w : World) (tabId : TabId) (delayMs : JsNum) : Handle × World :=
  (w.nextHandle,
   { w with
     pending := w.pending ++ [{ handle := w.nextHandle, tabId := tabId, delayMs := delayMs }]
     nextHandle := w.nextHandle + 1 })

/-- The body of `closeTab`: the request is logged; its callback only warns. -/
def closeTab (w : World) (tabId : TabId) : World :=
  { w with closes := w.closes ++ [tabId] }

/-- The body of `clearTimer`. -/
def clearTimer (w : World) (tabId : TabId) : World :=
  match w.timers.get tabId with
  | some timer =>
    { w with pending := clearTimeout w.pending timer, timers := w.timers.delete tabId }
  | none => w

/-- The body of `clearAllTimers`. -/
def clearAllTimers (w : World) : World :=
  { w with
    pending := w.timers.foldl (fun p e => clearTimeout p e.2) w.pending
    timers := [] }

/-- The body of `applyConfig`.  A `TypeError` of `updateSettings` is not
caught: it ends `applyConfig` and the listener that called it, and the world
stays as it was at the throw. -/
def applyConfig (H : Host) (w : World) (c : RawConfig) : World :=
  let w1 := clearAllTimers w
  let st1 := updatePatterns H w1.state c.patterns
  { w1 with state := lastState (updateSettings H st1 c.mode c.delaySeconds c.closeOnClick) }

/-- The part of `tick` after its `await`: `latest` is the tab that the lookup
returned, `none` when it failed. -/
def tickResume (H : Host) (w : World) (tabId : TabId) (delayMs : JsNum)
    (latest : Option Tab) : World :=
  match latest with
  | none => { w with timers := w.timers.delete tabId }
  | some t =>
    if !(shouldClose H w.state (some t)) then { w with timers := w.timers.delete tabId }
    else if t.active then
      let (retry, w1) := setTimeout w tabId delayMs
      { w1 with timers := w1.timers.set tabId retry }
    else closeTab { w with timers := w.timers.delete tabId } tabId

/-- The body of `scheduleIdleClose`. -/
def scheduleIdleClose (w : World) (tabId : TabId) : World :=
  if w.timers.has tabId then w
  else
    let delayMs := JsNum.mul w.state.delaySeconds (.fin 1000)
    let (timer, w1) := setTimeout w tabId delayMs
    { w1 with timers := w1.timers.set tabId timer }

/-- The part of `handleTab` that follows the choice of `currentTab`. -/
def handleTabResume (H : Host) (w : World) (tabId : TabId) (currentTab : Option Tab) :
    World :=
  match currentTab with
  | none => w
  | some t =>
    if !(shouldClose H w.state (some t)) then clearTimer w tabId
    else if w.state.mode = .immediate then closeTab w tabId
    else scheduleIdleClose w tabId

/-- The body of `handleTab`: with a `tab` it runs to its end, without one it
suspends at the lookup. -/
def handleTab (H : Host) (w : World) (tabId : TabId) (tab : Option Tab) : World :=
  match tab with
  | some t => handleTabResume H w tabId (some t)
  | none => { w with awaiting := w.awaiting ++ [.handleTab tabId] }

/-- The part of the `onActivated` listener after its `await`. -/
def activatedResume (H : Host) (w : World) (tabId : TabId) (tab : Option Tab) : World :=
  if shouldClose H w.state tab then closeTab (clearTimer w tabId) tabId
  else w

/-- The part of `runScanAllTabs` after its `await`: the loop over the tabs that
the query returned.  Every call of `handleTab` gets its tab, so none of them
suspends. -/
def runScanAllTabs (H : Host) (w : World) (tabs : List Tab) : World :=
  tabs.foldl (fun acc tab => handleTab H acc tab.id (some tab)) w

/-! ## The event loop -/

/-- The fields of `changeInfo` that the `onUpdated` listener reads. -/
structure ChangeInfo where
  url : Option String
  status : Option String

/-- The `changes` argument of `storage.onChanged`: for each of the four keys,
`some v` when the key is present with `newValue` equal to `v`. -/
structure Changes where
  patterns : Option JsVal
  mode : Option JsVal
  delaySeconds : Option JsVal
  closeOnClick : Option JsVal

/-- The object `next` that the `storage.onChanged` listener builds. -/
def nextConfig (st : State) (changes : Changes) : RawConfig :=
  { patterns := changes.patterns.getD (.arr st.patterns)
    mode := changes.mode.getD st.mode.toJs
    delaySeconds := changes.delaySeconds.getD (.num st.delaySeconds)
    closeOnClick := changes.closeOnClick.getD (.bool st.closeOnClick) }

/-- The `storage.onChanged` listener. -/
def onStorageChanged (H : Host) (w : World) (changes : Changes) (area : String) : World :=
  if area != "sync" then w
  else applyConfig H w (nextConfig w.state changes)

/-- The `tabs.onUpdated` listener. -/
def onUpdated (H : Host) (w : World) (tabId : TabId) (changeInfo : ChangeInfo)
    (tab : Option Tab) : World :=
  if (changeInfo.url.getD "" == "") && (changeInfo.status != some "complete") then w
  else handleTab H w tabId tab

/-- The first part of the `tabs.onActivated` listener, up to its `await`. -/
def onActivated (w : World) (tabId : TabId) : World :=
  if !w.state.closeOnClick then w
  else { w with awaiting := w.awaiting ++ [.activated tabId] }

/-- One task of the event loop. -/
inductive Event where
  /-- The callback of the `storage.sync.get` issued at startup. -/
  | configLoaded (config : RawConfig)
  | storageChanged (changes : Changes) (area : String)
  | tabCreated (tab : Tab)
  /-- The browser passes the tab with every update; `none` stands for a call
  without it, the case in which `handleTab` looks the tab up itself. -/
  | tabUpdated (tabId : TabId) (changeInfo : ChangeInfo) (tab : Option Tab)
  | tabRemoved (tabId : TabId)
  | tabActivated (tabId : TabId)
  /-- A runtime message; `runScan` tells whether its type is `run-scan`. -/
  | message (runScan : Bool)
  /-- The timeout with handle `h` expires. -/
  | timerFires (h : Handle)
  /-- The `chrome.tabs.get` awaited by the suspended handler number `i`
  settles; `none` is a rejection. -/
  | lookupResolves (i : Nat) (result : Option Tab)
  /-- The `chrome.tabs.query` awaited by the suspended handler number `i`
  settles; `none` is a rejection. -/
  | queryResolves (i : Nat) (result : Option (List Tab))

/-- The effect of one task on the world. -/
def step (H : Host) (w : World) : Event → World
  | .configLoaded config => applyConfig H w config
  | .storageChanged changes area => onStorageChanged H w changes area
  | .tabCreated tab => handleTab H w tab.id (some tab)
  | .tabUpdated tabId changeInfo tab => onUpdated H w tabId changeInfo tab
  | .tabRemoved tabId => clearTimer w tabId
  | .tabActivated tabId => onActivated w tabId
  | .message runScan =>
    if runScan then { w with awaiting := w.awaiting ++ [.scan] } else w
  | .timerFires h =>
    match w.pending.find? (fun t => t.handle == h) with
    | some t =>
      { w with
        pending := clearTimeout w.pending h
        awaiting := w.awaiting ++ [.tick t.tabId t.delayMs] }
    | none => w
  | .lookupResolves i result =>
    match w.awaiting.get? i with
    | some (.tick tabId delayMs) =>
      tickResume H { w with awaiting := w.awaiting.eraseIdx i } tabId delayMs result
    | some (.handleTab tabId) =>
      handleTabResume H { w with awaiting := w.awaiting.eraseIdx i } tabId result
    | some (.activated tabId) =>
      activatedResume H { w with awaiting := w.awaiting.eraseIdx i } tabId result
    | _ => w
  | .queryResolves i result =>
    match w.awaiting.get? i with
    | some .scan =>
      match result with
      | some tabs =>
        let w1 := runScanAllTabs H { w with awaiting := w.awaiting.eraseIdx i } tabs
        { w1 with responses := w1.responses ++ [.ok] }
      | none =>
        { w with
          awaiting := w.awaiting.eraseIdx i
          responses := w.responses ++ [.error] }
    | _ => w

/-- The world after a sequence of tasks. -/
def run (H : Host) (w : World) (events : List Event) : World :=
  events.foldl (step H) w

/-- The worlds that the script can be in. -/
inductive Reachable (H : Host) : World → Prop where
  | initial : Reachable H World.initial
  | step (w : World) (e : Event) : Reachable H w → Reachable H (step H w e)

/-! ## A host for worked examples

Its regular expressions are the patterns made of plain characters and escaped
punctuation; on these it agrees with `RegExp`.  Every other pattern is
reported as not compiling. -/

namespace Example

def backslash : Char := Char.ofNat 92

/-- The characters with a special meaning that the example host leaves out. -/
def special : List Char :=
  [Char.ofNat 46, Char.ofNat 94, Char.ofNat 36, Char.ofNat 124, Char.ofNat 63, Char.ofNat 42,
   Char.ofNat 43, Char.ofNat 40, Char.ofNat 41, Char.ofNat 91, Char.ofNat 93,
   Char.ofNat 123, Char.ofNat 125]

/-- Whether the pattern is in the fragment of the example host. -/
def simplePattern : List Char → Bool
  | [] => true
  | c :: p =>
    if c == backslash then
      match p with
      | [] => false
      | e :: q => !(e.isAlphanum) && simplePattern q
    else !(special.contains c) && simplePattern p

/-- Whether the pattern matches at the start of the text. -/
def matchHere : List Char → List Char → Bool
  | [], _ => true
  | _ :: _, [] => false
  | c :: p, t :: ts =>
    if c == backslash then
      match p with
      | [] => false
      | e :: q => e == t && matchHere q ts
    else c == t && matchHere p ts

/-- Whether the pattern matches somewhere in the text. -/
def search (p : List Char) : List Char → Bool
  | [] => matchHere p []
  | t :: ts => matchHere p (t :: ts) || search p ts

/-- The example host. -/
def host : Host :=
  { compiles := fun v =>
      match v with
      | .str s => simplePattern s.toList
      | _ => false
    test := fun v url =>
      match v with
      | .str s => search s.toList url.toList
      | _ => false
    stringToNumber := fun _ => .nan }

end Example

/-! ## The per-tab decision -/

inductive Decision where
  | skip
  | closeNow
  | scheduleIdle
  deriving DecidableEq, Repr

/-- The decision that `handleTab` takes for `currentTab`: the test of
`shouldClose` followed by the test of `state.mode`. -/
def decision (H : Host) (st : State) (tab : Option Tab) : Decision :=
  if !(shouldClose H st tab) then .skip
  else if st.mode = .immediate then .closeNow
  else .scheduleIdle

/-- The evaluator as the specification words it (section 4.4): skip an absent,
pinned or non-http(s) tab; skip when no rule matches; otherwise close now in
immediate mode and schedule in idle mode. -/
def specDecide (H : Host) (st : State) (tab : Option Tab) : Decision :=
  match tab with
  | none => .skip
  | some t =>
    if t.pinned = true ∨
        ¬ (startsWith (t.url.getD "") "http://" = true ∨
           startsWith (t.url.getD "") "https://" = true) then .skip
    else if ¬ ∃ rx ∈ st.regexes, H.test rx (t.url.getD "") = true then .skip
    else if st.mode = .immediate then .closeNow
    else .scheduleIdle

/-- No `onActivated` listener is suspended at its tab lookup. -/
def NoActivated (w : World) : Prop :=
  ∀ tabId : TabId, Cont.activated tabId ∉ w.awaiting

/-- What a handler may do to the timers between two worlds: handles are only
handed out upwards, and every registry entry and pending timeout of the later
world is either one of the earlier world or carries a handle handed out in
between. -/
structure Ext (w w' : World) : Prop where
  next : w.nextHandle ≤ w'.nextHandle
  timers : ∀ e ∈ w'.timers, e ∈ w.timers ∨ (w.nextHandle ≤ e.2 ∧ e.2 < w'.nextHandle)
  pending : ∀ t ∈ w'.pending,
    t ∈ w.pending ∨ (w.nextHandle ≤ t.handle ∧ t.handle < w'.nextHandle)

/-- The handle has been handed out and no timeout with it is pending. -/
def Spent (w : World) (h : Handle) : Prop :=
  h < w.nextHandle ∧ ∀ t ∈ w.pending, t.handle ≠ h

/-- The configuration as the specification normalises it (`Config.fromRaw`,
section 4.2): a mode other than the literal `idle` is immediate; the delay is
parsed as a number and falls back to 30 unless finite and strictly positive;
the close-on-click flag is coerced to a boolean; patterns that are not a
sequence give the empty set, and the rules are the patterns that compile.  The
function is total: a delay on which the parse throws counts as one that is
not a number. -/
def fromRaw (H : Host) (c : RawConfig) : State :=
  { patterns :=
      match c.patterns with
      | .arr xs => xs
      | _ => []
    regexes :=
      match c.patterns with
      | .arr xs => xs.filter H.compiles
      | _ => []
    mode :=
      match c.mode with
      | .str s => if s = "idle" then .idle else .immediate
      | _ => .immediate
    delaySeconds :=
      match toNumber H c.delaySeconds with
      | some (.fin q) => if 0 < q then .fin q else .fin 30
      | _ => .fin 30
    closeOnClick := toBoolean c.closeOnClick }

/-! ## Data for worked examples -/

namespace Example

/-- A stored configuration with the single pattern `example\.com`. -/
def config (mode : String) (delay : ℚ) (closeOnClick : Bool) : RawConfig :=
  { patterns := .arr [.str "example\\.com"], mode := .str mode,
    delaySeconds := .num (.fin delay), closeOnClick := .bool closeOnClick }

/-- Tab 7 showing a page that the pattern matches. -/
def page (active pinned : Bool) : Tab :=
  { id := 7, url := some "https://example.com/page", pinned := pinned, active := active }

/-- Tab 7 showing a page that the pattern does not match. -/
def elsewhere : Tab :=
  { id := 7, url := some "https://other.org/", pinned := false, active := false }

/-- The `changeInfo` of a finished load. -/
def complete : ChangeInfo :=
  { url := none, status := some "complete" }

/-- A change of the stored delay alone. -/
def delayChange (delay : ℚ) : Changes :=
  { patterns := none, mode := none, delaySeconds := some (.num (.fin delay)),
    closeOnClick := none }

end Example

namespace Example

/-- The world in which, in idle mode with a delay of 5 s, tab 7 has been armed. -/
def armed : World :=
  run host World.initial
    [.configLoaded (config "idle" 5 false), .tabUpdated 7 complete (some (page false false))]

/-- The world in which the timeout of tab 7 has expired and its callback is
suspended at the tab lookup. -/
def fired : World :=
  step host armed (.timerFires 0)

end Example

namespace Example

/-- The world in which, in idle mode with `closeOnClick` enabled, tab 7 has
been armed and then activated: the listener is suspended at its lookup. -/
def clicked : World :=
  run host World.initial
    [.configLoaded (config "idle" 5 true), .tabUpdated 7 complete (some (page false false)),
     .tabActivated 7]

end Example

namespace Example

/-- A change of the stored mode alone. -/
def modeChange (mode : String) : Changes :=
  { patterns := none, mode := some (.str mode), delaySeconds := none, closeOnClick := none }

/-- A change of the stored close-on-click flag alone. -/
def clickChange (closeOnClick : Bool) : Changes :=
  { patterns := none, mode := none, delaySeconds := none,
    closeOnClick := some (.bool closeOnClick) }

/-- The world reached from `fired` when tab 7 leaves the matching page and comes
back to it, and the suspended callback then resumes on the active tab. -/
def leaked : World :=
  run host fired
    [.tabUpdated 7 complete (some elsewhere), .tabUpdated 7 complete (some (page true false)),
     .lookupResolves 0 (some (page true false))]

/-- The world reached from `fired` when the mode is switched to immediate and
the suspended callback then resumes on the active tab. -/
def rearmed : World :=
  run host fired
    [.storageChanged (modeChange "immediate") "sync", .lookupResolves 0 (some (page true false))]

/-- The world in which tab 7 was activated while `closeOnClick` was enabled and
the option was disabled before the lookup of the listener settled. -/
def disabled : World :=
  run host World.initial
    [.configLoaded (config "idle" 5 true), .tabActivated 7,
     .storageChanged (clickChange false) "sync"]

end Example

namespace Example

/-- Tab 8 showing a page that the pattern matches. -/
def other : Tab :=
  { id := 8, url := some "http://www.example.com/", pinned := false, active := false }

/-- The world in which, in idle mode, tabs 7 and 8 have both been armed. -/
def twoArmed : World :=
  step host armed (.tabCreated other)

end Example

namespace Example

/-- A stored configuration whose four fields are all malformed. -/
def malformed : RawConfig :=
  { patterns := .str "example", mode := .num (.fin 5), delaySeconds := .num (.fin (-3)),
    closeOnClick := .null }

end Example

/-- The `state` object is normalised: its rules are its patterns that compile,
and its delay is a finite, strictly positive number. -/
def Normal (H : Host) (st : State) : Prop :=
  st.regexes = st.patterns.filter H.compiles ∧ ∃ q : ℚ, 0 < q ∧ st.delaySeconds = .fin q

namespace Example

/-- A change of the stored patterns alone. -/
def patternsChange (patterns : List String) : Changes :=
  { patterns := some (.arr (patterns.map JsVal.str)), mode := none, delaySeconds := none,
    closeOnClick := none }

end Example

/-- The callback that `closeTab` passes to `chrome.tabs.remove`: when the
removal failed (`lastError` is set) it writes a warning, and it changes
nothing. -/
def closeTabCallback (w : World) (_lastError : Option String) : World := w

/-- The tab ids and the snapshots that the handler run by an event evaluates
with `shouldClose`. -/
def snapshots (w : World) : Event → List (TabId × Tab)
  | .tabCreated tab => [(tab.id, tab)]
  | .tabUpdated tabId _ (some tab) => [(tabId, tab)]
  | .lookupResolves i (some tab) =>
    match w.awaiting.get? i with
    | some (.tick tabId _) => [(tabId, tab)]
    | some (.handleTab tabId) => [(tabId, tab)]
    | some (.activated tabId) => [(tabId, tab)]
    | _ => []
  | .queryResolves _ (some tabs) => tabs.map (fun tab => (tab.id, tab))
  | _ => []

namespace Example

/-- Three open tabs that all show matching pages. -/
def openTabs : List Tab :=
  [{ id := 1, url := some "https://example.com/a", pinned := false, active := false },
   { id := 2, url := some "https://example.com/b", pinned := false, active := true },
   { id := 3, url := some "http://example.com/c", pinned := false, active := false }]

/-- The world in which, in immediate mode, a scan was requested and its query
is outstanding. -/
def scanning : World :=
  run host World.initial [.configLoaded (config "immediate" 5 false), .message true]

end Example

/-! ## The settings page (`options.js`)

The page reads its form, validates it and writes the four stored fields.  Of
its effects only the write to `chrome.storage.sync` is kept; the status and
error texts that it shows are not part of the model. -/

namespace JsNum

/-- Holds exactly when `x <= 0` is true. -/
def leZero : JsNum → Bool
  | negInf => true
  | fin q => decide (q ≤ 0)
  | _ => false

end JsNum

namespace Options

/-- The constant `DEFAULT_DELAY`. -/
def DEFAULT_DELAY : JsNum := .fin 30

/-- The code points that `String.prototype.trim` strips: white space and line
terminators. -/
def isWhiteSpace (c : Char) : Bool :=
  c.toNat ∈ [0x9, 0xA, 0xB, 0xC, 0xD, 0x20, 0xA0, 0x1680, 0x2028, 0x2029, 0x202F, 0x205F,
    0x3000, 0xFEFF] || (0x2000 ≤ c.toNat && c.toNat ≤ 0x200A)

/-- The call `line.trim()`. -/
def trim (line : String) : String :=
  String.mk ((line.toList.dropWhile isWhiteSpace).reverse.dropWhile isWhiteSpace).reverse

/-- The object `{ valid, invalid }` that `validateLines` returns. -/
structure Validation where
  valid : List String
  invalid : List String
  deriving DecidableEq, Repr

/-- The callback of `lines.forEach` in `validateLines`, on the line at index
`idx`; `message` gives the `err.message` of the error that `new RegExp` throws
on a pattern. -/
def validateLine (H : Host) (message : String → String) (acc : Validation) (idx : Nat)
    (line : String) : Validation :=
  let trimmed := trim line
  if trimmed == "" then acc
  else if H.compiles (.str trimmed) then { acc with valid := acc.valid ++ [trimmed] }
  else
    { acc with
      invalid := acc.invalid ++
        ["Line " ++ toString (idx + 1) ++ ": " ++ trimmed ++ "\n  " ++ message trimmed] }

/-- The loop of `validateLines` from index `idx` on. -/
def validateFrom (H : Host) (message : String → String) :
    Validation → Nat → List String → Validation
  | acc, _, [] => acc
  | acc, idx, line :: rest =>
    validateFrom H message (validateLine H message acc idx line) (idx + 1) rest

/-- The body of `validateLines`. -/
def validateLines (H : Host) (message : String → String) (lines : List String) :
    Validation :=
  validateFrom H message { valid := [], invalid := [] } 0 lines

/-- The split of `cs` at every `\r\n` and every `\n`; `cur` holds the current
piece, reversed. -/
def splitAux : List Char → List Char → List String
  | [], cur => [String.mk cur.reverse]
  | '\r' :: '\n' :: rest, cur => String.mk cur.reverse :: splitAux rest []
  | '\n' :: rest, cur => String.mk cur.reverse :: splitAux rest []
  | c :: rest, cur => splitAux rest (c :: cur)

/-- The call `value.split(/\r?\n/)`. -/
def splitLines (value : String) : List String :=
  splitAux value.toList []

/-- The controls of the form that `save` reads: `mode` is the value of the
checked radio button, `none` when no button is checked. -/
structure Form where
  patterns : String
  mode : Option String
  delay : String
  closeOnClick : Bool
  deriving DecidableEq, Repr

/-- The object that `save` passes to `chrome.storage.sync.set`. -/
structure Saved where
  patterns : List String
  mode : String
  delaySeconds : JsNum
  closeOnClick : Bool
  deriving DecidableEq, Repr

/-- The body of `validateInput`, without its updates of the page. -/
def validateInput (H : Host) (message : String → String) (form : Form) : Validation :=
  validateLines H message (splitLines form.patterns)

/-- The body of `selectedMode`. -/
def selectedMode (form : Form) : String :=
  match form.mode with
  | some value => value
  | none => "immediate"

/-- The body of `save`: `none` when it ends without a write, otherwise the
object that it writes. -/
def save (H : Host) (message : String → String) (form : Form) : Option Saved :=
  let v := validateInput H message form
  if v.invalid.length != 0 then none
  else
    let mode := selectedMode form
    match toNumber H (.str form.delay) with
    | none => none
    | some parsed =>
      let delaySeconds := if toBoolean (.num parsed) then parsed else DEFAULT_DELAY
      if mode == "idle" && (!delaySeconds.isFinite || delaySeconds.leZero) then none
      else
        some { patterns := v.valid, mode := mode, delaySeconds := delaySeconds,
               closeOnClick := form.closeOnClick }

end Options

namespace Example

/-- The value of a string of decimal digits, `none` for any other string. -/
def digits : List Char → Nat → Option Nat
  | [], n => some n
  | c :: cs, n => if c.isDigit then digits cs (10 * n + (c.toNat - 48)) else none

/-- The result of `Number(s)` for an empty string and for a decimal integer
with an optional minus sign; NaN stands for every other string. -/
def integer (s : String) : JsNum :=
  match s.toList with
  | [] => .fin 0
  | '-' :: c :: cs =>
    match digits (c :: cs) 0 with
    | some n => .fin (-(n : ℚ))
    | none => .nan
  | cs =>
    match digits cs 0 with
    | some n => .fin (n : ℚ)
    | none => .nan

/-- The example host with integer literals parsed. -/
def numericHost : Host :=
  { compiles := host.compiles
    test := host.test
    stringToNumber := fun v =>
      match v with
      | .str s => integer s
      | _ => .nan }

/-- An error text for a pattern that does not compile. -/
def message (pattern : String) : String :=
  "Invalid regular expression: /" ++ pattern ++ "/"

/-- A form with one pattern and the given mode and delay text. -/
def form (mode delay : String) : Options.Form :=
  { patterns := "example\\.com", mode := some mode, delay := delay, closeOnClick := false }

/-- The lines of a pattern box: a pattern, a blank line, an unbalanced
pattern, and a padded pattern. -/
def lines : List String :=
  ["example\\.com", "   ", "(", "  b\t"]

end Example

namespace Example

/-- A stored configuration whose delay is the object `{"toString": 1}`, with
the mode idle and the flag set. -/
def objectDelay : RawConfig :=
  { patterns := .arr [.str "example\\.com"], mode := .str "idle",
    delaySeconds := .obj ["toString"], closeOnClick := .bool true }

end Example

/-- No idle timer is at work: the registry is empty, no timeout is pending and
no callback `tick` is suspended at its lookup. -/
def Quiet (w : World) : Prop :=
  w.timers = [] ∧ w.pending = [] ∧ ∀ tabId delayMs, Cont.tick tabId delayMs ∉ w.awaiting

/-! ## Lemmas on the `timers` map -/

namespace Timers

theorem get_delete_self (m : Timers) (k : TabId) : (m.delete k).get k = none := by
  induction m with
  | nil => rfl
  | cons e m ih =>
    by_cases h : e.1 = k
    · simp [Timers.delete, h, ih]
    · simp [Timers.delete, Timers.get, h, ih]

theorem get_delete_of_ne (m : Timers) (k j : TabId) (hj : j ≠ k) :
    (m.delete k).get j = m.get j := by
  induction m with
  | nil => rfl
  | cons e m ih =>
    obtain ⟨a, b⟩ := e
    simp only [Timers.delete, Timers.get]
    by_cases h : a = k
    · subst h
      have hne : ¬ a = j := fun h2 => hj h2.symm
      simp [hne, ih]
    · by_cases h2 : a = j
      · subst h2
        simp [h, Timers.get]
      · simp [h, h2, Timers.get, ih]

theorem has_eq_false_iff_get (m : Timers) (k : TabId) : m.has k = false ↔ m.get k = none := by
  induction m with
  | nil => simp [Timers.has, Timers.get]
  | cons e m ih =>
    by_cases h : e.1 = k
    · simp [Timers.has, Timers.get, h]
    · simp [Timers.has, Timers.get, h, ih]

theorem get_set_self (m : Timers) (k : TabId) (v : Handle) : (m.set k v).get k = some v := by
  induction m with
  | nil => simp [Timers.set, Timers.get]
  | cons e m ih =>
    by_cases h : e.1 = k
    · simp [Timers.set, Timers.get, h]
    · simp [Timers.set, Timers.get, h, ih]

theorem has_set_self (m : Timers) (k : TabId) (v : Handle) : (m.set k v).has k = true := by
  cases h : (m.set k v).has k with
  | true => rfl
  | false =>
    have := (has_eq_false_iff_get _ _).1 h
    rw [get_set_self] at this
    cases this

theorem set_of_not_has (m : Timers) (k : TabId) (v : Handle) (h : m.has k = false) :
    m.set k v = m ++ [(k, v)] := by
  induction m with
  | nil => rfl
  | cons e m ih =>
    simp only [Timers.has, Bool.or_eq_false_iff] at h
    simp [Timers.set, h.1, ih h.2]

theorem delete_of_not_has (m : Timers) (k : TabId) (h : m.has k = false) :
    m.delete k = m := by
  induction m with
  | nil => rfl
  | cons e m ih =>
    simp only [Timers.has, Bool.or_eq_false_iff] at h
    simp [Timers.delete, h.1, ih h.2]

end Timers

/-! ## The per-tab decision (C1) -/

theorem decision_eq_specDecide (H : Host) (st : State) (tab : Option Tab) :
    decision H st tab = specDecide H st tab := by
  cases tab with
  | none => simp [decision, specDecide, shouldClose]
  | some t =>
    by_cases hp : t.pinned = true
    · simp [decision, specDecide, shouldClose, hp]
    · by_cases h1 : startsWith (t.url.getD "") "http://" = true
      · by_cases hm : ∃ rx ∈ st.regexes, H.test rx (t.url.getD "") = true
        · have hany : st.regexes.any (fun rx => H.test rx (t.url.getD "")) = true :=
            List.any_eq_true.2 hm
          simp [decision, specDecide, shouldClose, hp, h1, hm, hany]
        · have hany : st.regexes.any (fun rx => H.test rx (t.url.getD "")) = false := by
            cases hb : st.regexes.any (fun rx => H.test rx (t.url.getD "")) with
            | false => rfl
            | true => exact absurd (List.any_eq_true.1 hb) hm
          simp [decision, specDecide, shouldClose, hp, h1, hm, hany]
      · by_cases h2 : startsWith (t.url.getD "") "https://" = true
        · by_cases hm : ∃ rx ∈ st.regexes, H.test rx (t.url.getD "") = true
          · have hany : st.regexes.any (fun rx => H.test rx (t.url.getD "")) = true :=
              List.any_eq_true.2 hm
            simp [decision, specDecide, shouldClose, hp, h1, h2, hm, hany]
          · have hany : st.regexes.any (fun rx => H.test rx (t.url.getD "")) = false := by
              cases hb : st.regexes.any (fun rx => H.test rx (t.url.getD "")) with
              | false => rfl
              | true => exact absurd (List.any_eq_true.1 hb) hm
            simp [decision, specDecide, shouldClose, hp, h1, h2, hm, hany]
        · simp [decision, specDecide, shouldClose, hp, h1, h2]

theorem handleTab_by_decision (H : Host) (w : World) (tabId : TabId) (t : Tab) :
    handleTab H w tabId (some t) =
      match decision H w.state (some t) with
      | .skip => clearTimer w tabId
      | .closeNow => closeTab w tabId
      | .scheduleIdle => scheduleIdleClose w tabId := by
  simp only [handleTab, handleTabResume, decision]
  cases shouldClose H w.state (some t) <;> simp
  by_cases hm : w.state.mode = .immediate <;> simp [hm]

/-- C1: the decision taken by `shouldClose` and the mode test of `handleTab`
is the evaluator of the specification: Skip for an absent, pinned or
non-http(s) tab and when no compiled rule matches (so with no rules at all),
otherwise CloseNow in immediate mode and ScheduleIdle in idle mode; `handleTab`
acts on a present tab according to that decision.  With the pattern
`example\.com` in immediate mode, `https://example.com/page` gives CloseNow
when the tab is not pinned and Skip when it is. -/
theorem C1_decision :
    (∀ (H : Host) (st : State) (tab : Option Tab),
      decision H st tab = specDecide H st tab) ∧
    (∀ (H : Host) (w : World) (tabId : TabId) (t : Tab),
      handleTab H w tabId (some t) =
        match decision H w.state (some t) with
        | .skip => clearTimer w tabId
        | .closeNow => closeTab w tabId
        | .scheduleIdle => scheduleIdleClose w tabId) ∧
    (∀ (H : Host) (st : State) (tab : Option Tab),
      st.regexes = [] → decision H st tab = .skip) ∧
    decision Example.host
      (applyConfig Example.host World.initial (Example.config "immediate" 30 false)).state
      (some (Example.page false false)) = .closeNow ∧
    decision Example.host
      (applyConfig Example.host World.initial (Example.config "immediate" 30 false)).state
      (some (Example.page false true)) = .skip ∧
    decision Example.host
      (applyConfig Example.host World.initial (Example.config "idle" 30 false)).state
      (some (Example.page false false)) = .scheduleIdle := by
  refine ⟨decision_eq_specDecide, handleTab_by_decision, ?_, by decide, by decide, by decide⟩
  intro H st tab h
  cases tab with
  | none => simp [decision, shouldClose]
  | some t => simp [decision, shouldClose, h]

/-! ## The idle timer callback (C2) -/

/-- C2: when a pending timeout expires, its callback starts and waits for the
tab lookup, and nothing else changes.  When the callback resumes, the fresh
snapshot decides between three outcomes.  If the lookup failed or the tab
no longer passes `shouldClose`, the registry entry is removed and nothing is
closed.  If the tab still passes and is active, nothing is closed and the entry
is replaced by a new timeout with the same delay.  If the tab still passes and
is not active, the entry is removed and the close of the tab is requested. -/
theorem C2_tick_outcomes (H : Host) (w : World) (i : Nat) (tabId : TabId) (delayMs : JsNum)
    (latest : Option Tab) (hk : w.awaiting.get? i = some (.tick tabId delayMs)) :
    (∀ (v : World) (h : Handle) (t : Timeout),
      v.pending.find? (fun x => x.handle == h) = some t →
      step H v (.timerFires h) =
        { v with
          pending := clearTimeout v.pending h
          awaiting := v.awaiting ++ [.tick t.tabId t.delayMs] }) ∧
    ((latest = none ∨ shouldClose H w.state latest = false) →
      (step H w (.lookupResolves i latest)).timers = w.timers.delete tabId ∧
      (step H w (.lookupResolves i latest)).timers.get tabId = none ∧
      (step H w (.lookupResolves i latest)).closes = w.closes ∧
      (step H w (.lookupResolves i latest)).pending = w.pending) ∧
    (∀ t : Tab, latest = some t → shouldClose H w.state latest = true → t.active = true →
      (step H w (.lookupResolves i latest)).closes = w.closes ∧
      (step H w (.lookupResolves i latest)).pending =
        w.pending ++ [{ handle := w.nextHandle, tabId := tabId, delayMs := delayMs }] ∧
      (step H w (.lookupResolves i latest)).timers = w.timers.set tabId w.nextHandle ∧
      (step H w (.lookupResolves i latest)).timers.get tabId = some w.nextHandle) ∧
    (∀ t : Tab, latest = some t → shouldClose H w.state latest = true → t.active = false →
      (step H w (.lookupResolves i latest)).timers = w.timers.delete tabId ∧
      (step H w (.lookupResolves i latest)).timers.get tabId = none ∧
      (step H w (.lookupResolves i latest)).closes = w.closes ++ [tabId] ∧
      (step H w (.lookupResolves i latest)).pending = w.pending) := by
  have hs : step H w (.lookupResolves i latest) =
      tickResume H { w with awaiting := w.awaiting.eraseIdx i } tabId delayMs latest := by
    simp only [step, hk]
  rw [hs]
  refine ⟨?_, ?_, ?_, ?_⟩
  · intro v h t hf
    simp only [step, hf]
  · intro h
    have hsc : shouldClose H w.state latest = false := by
      rcases h with h | h
      · subst h; rfl
      · exact h
    cases latest with
    | none => simp [tickResume, Timers.get_delete_self]
    | some t => simp [tickResume, hsc, Timers.get_delete_self]
  · intro t ht hsc hact
    subst ht
    simp [tickResume, hsc, hact, setTimeout, Timers.get_set_self]
  · intro t ht hsc hact
    subst ht
    simp [tickResume, hsc, hact, closeTab, Timers.get_delete_self]

/-- Witness for C2: tab 7 was armed in idle mode, its timeout has expired and
its callback is suspended; the three snapshots give the three outcomes. -/
theorem C2_tick_outcomes_witness :
    (step Example.host Example.fired (.lookupResolves 0 (some Example.elsewhere))).timers = [] ∧
    (step Example.host Example.fired (.lookupResolves 0 (some Example.elsewhere))).closes = [] ∧
    (step Example.host Example.fired (.lookupResolves 0 (some (Example.page true false)))).closes
      = [] ∧
    (step Example.host Example.fired (.lookupResolves 0 (some (Example.page true false)))).timers
      = [(7, 1)] ∧
    (step Example.host Example.fired (.lookupResolves 0 (some (Example.page false false)))).timers
      = [] ∧
    (step Example.host Example.fired (.lookupResolves 0 (some (Example.page false false)))).closes
      = [7] := by
  have hk : Example.fired.awaiting.get? 0 = some (.tick 7 (.fin 5000)) := by decide!
  have h1 := (C2_tick_outcomes Example.host Example.fired 0 7 (.fin 5000)
    (some Example.elsewhere) hk).2.1 (Or.inr (by decide))
  have h2 := (C2_tick_outcomes Example.host Example.fired 0 7 (.fin 5000)
    (some (Example.page true false)) hk).2.2.1 _ rfl (by decide) (by decide)
  have h3 := (C2_tick_outcomes Example.host Example.fired 0 7 (.fin 5000)
    (some (Example.page false false)) hk).2.2.2 _ rfl (by decide) (by decide)
  exact ⟨h1.1.trans (by decide), h1.2.2.1.trans (by decide), h2.1.trans (by decide),
    h2.2.2.1.trans (by decide), h3.1.trans (by decide), h3.2.2.1.trans (by decide)⟩


/-! ## Lemmas on `clearTimer` and `scheduleIdleClose` -/

theorem clearTimer_timers (w : World) (k : TabId) :
    (clearTimer w k).timers = w.timers.delete k := by
  unfold clearTimer
  cases h : w.timers.get k with
  | none =>
    have := (Timers.has_eq_false_iff_get w.timers k).2 h
    simp [Timers.delete_of_not_has _ _ this]
  | some t => rfl

theorem clearTimer_get (w : World) (k : TabId) : (clearTimer w k).timers.get k = none := by
  rw [clearTimer_timers]
  exact Timers.get_delete_self _ _

theorem clearTimer_closes (w : World) (k : TabId) : (clearTimer w k).closes = w.closes := by
  unfold clearTimer
  cases w.timers.get k <;> rfl

theorem clearTimer_state (w : World) (k : TabId) : (clearTimer w k).state = w.state := by
  unfold clearTimer
  cases w.timers.get k <;> rfl

theorem clearTimer_awaiting (w : World) (k : TabId) :
    (clearTimer w k).awaiting = w.awaiting := by
  unfold clearTimer
  cases w.timers.get k <;> rfl

theorem scheduleIdleClose_of_has (w : World) (k : TabId) (h : w.timers.has k = true) :
    scheduleIdleClose w k = w := by
  simp [scheduleIdleClose, h]

/-! ## Arming is idempotent (C6) -/

/-- C6: `scheduleIdleClose` does nothing when the registry already holds an
entry for the tab; otherwise it creates exactly one timeout, with delay
`state.delaySeconds * 1000`, and records its handle under the tab id.  Arming
twice is the same as arming once.  The delay is the product of doubles: for a
finite delay it is the double nearest to the exact product, so 5 s give
5000 ms, 1.005 s, which is the double 1131529406376837 / 2 ^ 50, give
1004.9999999999999 ms, and the largest double gives `Infinity`. -/
theorem C6_scheduleIdleClose_idempotent (w : World) (tabId : TabId) :
    (w.timers.has tabId = true → scheduleIdleClose w tabId = w) ∧
    (w.timers.has tabId = false →
      (scheduleIdleClose w tabId).pending =
        w.pending ++ [{ handle := w.nextHandle, tabId := tabId,
                        delayMs := JsNum.mul w.state.delaySeconds (.fin 1000) }] ∧
      (scheduleIdleClose w tabId).timers = w.timers ++ [(tabId, w.nextHandle)] ∧
      (scheduleIdleClose w tabId).timers.get tabId = some w.nextHandle ∧
      (scheduleIdleClose w tabId).closes = w.closes ∧
      (scheduleIdleClose w tabId).state = w.state) ∧
    scheduleIdleClose (scheduleIdleClose w tabId) tabId = scheduleIdleClose w tabId ∧
    (∀ q a : ℚ, w.state.delaySeconds = .fin q → JsNum.round q = .fin a →
      JsNum.mul w.state.delaySeconds (.fin 1000) = JsNum.round (a * 1000)) ∧
    JsNum.mul .posInf (.fin 1000) = .posInf ∧
    JsNum.mul (.fin 5) (.fin 1000) = .fin 5000 ∧
    JsNum.mul (.fin (201 / 200)) (.fin 1000) = .fin (8840073487319039 / 2 ^ 43) ∧
    JsNum.mul (.fin (1131529406376837 / 2 ^ 50)) (.fin 1000)
      = .fin (8840073487319039 / 2 ^ 43) ∧
    JsNum.mul (.fin ((2 ^ 53 - 1) * 2 ^ 971)) (.fin 1000) = .posInf := by
  refine ⟨?_, ?_, ?_, ?_, by decide!, by decide!, by decide!, by decide!, by decide!⟩
  · exact scheduleIdleClose_of_has w tabId
  · intro h
    simp [scheduleIdleClose, h, setTimeout, Timers.set_of_not_has, Timers.get_set_self]
    rw [← Timers.set_of_not_has _ _ _ h]
    exact Timers.get_set_self _ _ _
  · by_cases h : w.timers.has tabId = true
    · rw [scheduleIdleClose_of_has w tabId h, scheduleIdleClose_of_has w tabId h]
    · have hf : w.timers.has tabId = false := by simpa using h
      have h2 : (scheduleIdleClose w tabId).timers.has tabId = true := by
        simp [scheduleIdleClose, hf, setTimeout, Timers.has_set_self]
      exact scheduleIdleClose_of_has _ _ h2
  · intro q a hq ha
    have h1000 : JsNum.round 1000 = .fin 1000 := by decide!
    rw [hq]
    simp only [JsNum.mul, JsNum.toDouble, ha, h1000, JsNum.mulDouble]

/-- Witness for C6: in idle mode with a delay of 5 s, arming tab 7 creates the
single timeout 0 with delay 5000 ms, and arming it again changes nothing. -/
theorem C6_scheduleIdleClose_witness :
    (scheduleIdleClose (applyConfig Example.host World.initial (Example.config "idle" 5 false))
      7).pending = [{ handle := 0, tabId := 7, delayMs := .fin 5000 }] ∧
    (scheduleIdleClose (applyConfig Example.host World.initial (Example.config "idle" 5 false))
      7).timers = [(7, 0)] ∧
    (scheduleIdleClose Example.armed 7).pending
      = [{ handle := 0, tabId := 7, delayMs := .fin 5000 }] ∧
    (scheduleIdleClose Example.armed 7).timers = [(7, 0)] := by
  have h1 := (C6_scheduleIdleClose_idempotent
    (applyConfig Example.host World.initial (Example.config "idle" 5 false)) 7).2.1 (by decide)
  have h2 := (C6_scheduleIdleClose_idempotent Example.armed 7).1 (by decide)
  refine ⟨h1.1.trans (by decide!), h1.2.1.trans (by decide), ?_, ?_⟩
  · rw [h2]; decide!
  · rw [h2]; decide


/-! ## The tab-activated listener (C9) -/

/-- C9: on a tab-activated event with `closeOnClick` disabled the listener
changes nothing; with it enabled the listener only waits for the tab lookup.
When the lookup settles, a snapshot that passes `shouldClose` makes the
listener cancel the tab's timer and request the close, whatever the mode,
and the configuration is left as it was: the entry of the tab is removed, the
timeout that the entry recorded is taken out of the pending timeouts, no
pending timeout has its handle, and its expiry does nothing any more; without
an entry the pending timeouts stay.  A failed lookup or a snapshot that does
not pass leaves the registry, the pending timeouts, the configuration and the
close requests unchanged. -/
theorem C9_activated (H : Host) (w : World) (tabId : TabId) (i : Nat) (tab : Option Tab)
    (hk : w.awaiting.get? i = some (.activated tabId)) :
    (∀ v : World, v.state.closeOnClick = false → step H v (.tabActivated tabId) = v) ∧
    (∀ v : World, v.state.closeOnClick = true →
      step H v (.tabActivated tabId) =
        { v with awaiting := v.awaiting ++ [.activated tabId] }) ∧
    (shouldClose H w.state tab = true →
      (step H w (.lookupResolves i tab)).closes = w.closes ++ [tabId] ∧
      (step H w (.lookupResolves i tab)).timers = w.timers.delete tabId ∧
      (step H w (.lookupResolves i tab)).timers.get tabId = none ∧
      (∀ h, w.timers.get tabId = some h →
        (step H w (.lookupResolves i tab)).pending = clearTimeout w.pending h ∧
        (step H w (.lookupResolves i tab)).pending
          = w.pending.filter (fun t => t.handle != h) ∧
        (∀ t ∈ (step H w (.lookupResolves i tab)).pending, t.handle ≠ h) ∧
        (∀ t ∈ w.pending, t.handle ≠ h → t ∈ (step H w (.lookupResolves i tab)).pending) ∧
        step H (step H w (.lookupResolves i tab)) (.timerFires h)
          = step H w (.lookupResolves i tab)) ∧
      (w.timers.get tabId = none → (step H w (.lookupResolves i tab)).pending = w.pending) ∧
      (step H w (.lookupResolves i tab)).pending = (clearTimer w tabId).pending ∧
      (step H w (.lookupResolves i tab)).state = w.state) ∧
    (shouldClose H w.state tab = false →
      step H w (.lookupResolves i tab) = { w with awaiting := w.awaiting.eraseIdx i }) := by
  have hs : step H w (.lookupResolves i tab) =
      activatedResume H { w with awaiting := w.awaiting.eraseIdx i } tabId tab := by
    simp only [step, hk]
  refine ⟨?_, ?_, ?_, ?_⟩
  · intro v hv
    simp [step, onActivated, hv]
  · intro v hv
    simp [step, onActivated, hv]
  · intro hsc
    rw [hs]
    simp only [activatedResume, hsc, if_true, closeTab, clearTimer_closes, clearTimer_timers,
      clearTimer_state, Timers.get_delete_self]
    have hp : ∀ h, w.timers.get tabId = some h →
        (clearTimer { w with awaiting := w.awaiting.eraseIdx i } tabId).pending
          = clearTimeout w.pending h := by
      intro h hh
      simp only [clearTimer, hh]
    refine ⟨trivial, trivial, trivial, ?_, ?_, ?_, trivial⟩
    · intro h hh
      have hne : ∀ t ∈ clearTimeout w.pending h, t.handle ≠ h := by
        intro t ht
        simp only [clearTimeout, List.mem_filter, bne_iff_ne, ne_eq] at ht
        exact ht.2
      refine ⟨hp h hh, hp h hh, ?_, ?_, ?_⟩
      · rw [hp h hh]
        exact hne
      · intro t ht hth
        rw [hp h hh]
        simp only [clearTimeout, List.mem_filter, bne_iff_ne, ne_eq]
        exact ⟨ht, hth⟩
      · have hf : (clearTimeout w.pending h).find? (fun t => t.handle == h) = none := by
          rw [List.find?_eq_none]
          intro t ht
          simpa using hne t ht
        simp only [step, hp h hh, hf]
    · intro hh
      simp only [clearTimer, hh]
    · unfold clearTimer
      cases w.timers.get tabId <;> rfl
  · intro hsc
    rw [hs]
    simp [activatedResume, hsc]

/-- Witness for C9: in idle mode with `closeOnClick` enabled and tab 7 armed,
activating tab 7 closes it and empties the registry, and the mode stays idle;
a snapshot that does not match changes nothing but the list of waiting
handlers. -/
theorem C9_activated_witness :
    Example.clicked.awaiting.get? 0 = some (.activated 7) ∧
    Example.clicked.timers = [(7, 0)] ∧
    (step Example.host Example.clicked
      (.lookupResolves 0 (some (Example.page true false)))).closes = [7] ∧
    (step Example.host Example.clicked
      (.lookupResolves 0 (some (Example.page true false)))).timers = [] ∧
    (step Example.host Example.clicked
      (.lookupResolves 0 (some (Example.page true false)))).state.mode = .idle ∧
    (step Example.host Example.clicked (.lookupResolves 0 (some Example.elsewhere))).closes
      = [] ∧
    (step Example.host Example.clicked (.lookupResolves 0 none)).timers = [(7, 0)] ∧
    step Example.host World.initial (.tabActivated 7) = World.initial ∧
    Example.clicked.pending = [{ handle := 0, tabId := 7, delayMs := .fin 5000 }] ∧
    (step Example.host Example.clicked
      (.lookupResolves 0 (some (Example.page true false)))).pending = [] := by
  have hk : Example.clicked.awaiting.get? 0 = some (.activated 7) := by decide
  have h1 := (C9_activated Example.host Example.clicked 7 0
    (some (Example.page true false)) hk).2.2.1 (by decide)
  have h2 := (C9_activated Example.host Example.clicked 7 0
    (some Example.elsewhere) hk).2.2.2 (by decide)
  have h3 := (C9_activated Example.host Example.clicked 7 0 none hk).2.2.2 (by decide)
  have h4 := (C9_activated Example.host Example.clicked 7 0 none hk).1 World.initial
    (by decide)
  refine ⟨hk, by decide, h1.1.trans (by decide), h1.2.1.trans (by decide), ?_, ?_, ?_, h4,
    by decide!, (h1.2.2.2.1 0 (by decide)).1.trans (by decide!)⟩
  · rw [h1.2.2.2.2.2.2]; decide
  · rw [h2]; decide
  · rw [h3]; decide


/-! ## Reachability -/

theorem reachable_run (H : Host) (w : World) (events : List Event) (hw : Reachable H w) :
    Reachable H (run H w events) := by
  induction events generalizing w with
  | nil => exact hw
  | cons e es ih => exact ih _ (Reachable.step w e hw)

/-! ## A cancelled callback still acts (C3) -/

/-- C3 as stated fails on the code: tab 7 is armed in idle mode, its timeout
expires and the callback waits for its lookup.  The tab then leaves the matching page,
so `clearTimer(7)` runs and empties the registry; or the stored delay changes,
so `clearAllTimers()` runs.  When the lookup settles on a matching tab the
cancelled callback still acts: it requests the close of an inactive tab and
writes a new registry entry for an active one. -/
theorem C3_cancelled_callback_still_acts :
    Reachable Example.host Example.fired ∧
    Example.fired.awaiting = [.tick 7 (.fin 5000)] ∧
    step Example.host Example.fired (.tabUpdated 7 Example.complete (some Example.elsewhere))
      = clearTimer Example.fired 7 ∧
    (clearTimer Example.fired 7).timers = [] ∧
    (clearTimer Example.fired 7).pending = [] ∧
    (step Example.host (clearTimer Example.fired 7)
      (.lookupResolves 0 (some (Example.page false false)))).closes = [7] ∧
    (step Example.host (clearTimer Example.fired 7)
      (.lookupResolves 0 (some (Example.page true false)))).timers = [(7, 1)] ∧
    (step Example.host Example.fired (.storageChanged (Example.delayChange 60) "sync")).timers
      = (clearAllTimers Example.fired).timers ∧
    (clearAllTimers Example.fired).timers = [] ∧
    (run Example.host Example.fired
      [.storageChanged (Example.delayChange 60) "sync",
       .lookupResolves 0 (some (Example.page false false))]).closes = [7] ∧
    (run Example.host Example.fired
      [.storageChanged (Example.delayChange 60) "sync",
       .lookupResolves 0 (some (Example.page true false))]).timers = [(7, 1)] := by
  refine ⟨?_, by decide!, rfl, by decide, by decide, by decide, by decide, rfl, by decide,
    by decide, by decide⟩
  exact Reachable.step _ _ (reachable_run _ _ _ Reachable.initial)

/-! ## A timer outside the registry (C5) -/

/-- C5, evaluated on the code: while the callback of tab 7 waits for its
lookup, the tab leaves the matching page (the entry is cleared) and returns to
it (timeout 1 is armed and recorded); the callback then resumes on the active
tab, sets timeout 2 and overwrites the entry.  Two timeouts are now pending for
tab 7 and timeout 1 is not the one recorded in the registry: both can expire
and close the tab, and neither `clearTimer(7)` nor `clearAllTimers()` clears
timeout 1. -/
theorem C5_two_pending_timers :
    Reachable Example.host Example.leaked ∧
    Example.leaked.pending =
      [{ handle := 1, tabId := 7, delayMs := .fin 5000 },
       { handle := 2, tabId := 7, delayMs := .fin 5000 }] ∧
    Example.leaked.timers = [(7, 2)] ∧
    Example.leaked.timers.get 7 ≠ some 1 ∧
    (run Example.host Example.leaked
      [.timerFires 1, .timerFires 2, .lookupResolves 0 (some (Example.page false false)),
       .lookupResolves 0 (some (Example.page false false))]).closes = [7, 7] ∧
    (clearTimer Example.leaked 7).pending
      = [{ handle := 1, tabId := 7, delayMs := .fin 5000 }] ∧
    (clearAllTimers Example.leaked).pending
      = [{ handle := 1, tabId := 7, delayMs := .fin 5000 }] := by
  refine ⟨?_, by decide!, by decide, by decide, by decide, by decide!, by decide!⟩
  exact reachable_run _ _ _ (Reachable.step _ _ (reachable_run _ _ _ Reachable.initial))

/-! ## Closing at once leaves the registry alone (C7) -/

/-- C7, evaluated on the code: when the decision is CloseNow, `handleTab` is
`closeTab` and nothing more, so the registry and the pending timeouts stay as
they were.  A world with an entry in immediate mode is reachable: the mode is
switched to immediate while the callback of tab 7 waits for its lookup, and the
callback re-arms the tab.  The next update of tab 7 is decided CloseNow;
`handleTab` requests the close and leaves the registry entry and its pending
timeout in place. -/
theorem C7_close_now_keeps_timer :
    (∀ (H : Host) (w : World) (tabId : TabId) (t : Tab),
      decision H w.state (some t) = .closeNow →
      handleTab H w tabId (some t) = closeTab w tabId ∧
      (handleTab H w tabId (some t)).timers = w.timers ∧
      (handleTab H w tabId (some t)).pending = w.pending) ∧
    Reachable Example.host Example.rearmed ∧
    Example.rearmed.state.mode = .immediate ∧
    Example.rearmed.timers = [(7, 1)] ∧
    decision Example.host Example.rearmed.state (some (Example.page true false)) = .closeNow ∧
    (step Example.host Example.rearmed
      (.tabUpdated 7 Example.complete (some (Example.page true false)))).closes = [7] ∧
    (step Example.host Example.rearmed
      (.tabUpdated 7 Example.complete (some (Example.page true false)))).timers.get 7
      = some 1 ∧
    (step Example.host Example.rearmed
      (.tabUpdated 7 Example.complete (some (Example.page true false)))).pending
      = [{ handle := 1, tabId := 7, delayMs := .fin 5000 }] := by
  refine ⟨?_, ?_, by decide, by decide, by decide, by decide, by decide, by decide!⟩
  · intro H w tabId t hd
    have he : handleTab H w tabId (some t) = closeTab w tabId := by
      rw [handleTab_by_decision, hd]
    rw [he]
    exact ⟨rfl, rfl, rfl⟩
  · exact reachable_run _ _ _ (Reachable.step _ _ (reachable_run _ _ _ Reachable.initial))


/-! ## Skipped tabs (C8) -/

theorem not_mem_clearTimeout (pending : List Timeout) (h : Handle) :
    ∀ x ∈ clearTimeout pending h, x.handle ≠ h := by
  intro x hx
  simp only [clearTimeout, List.mem_filter, bne_iff_ne, ne_eq] at hx
  exact hx.2

theorem clearTimer_pending (w : World) (k : TabId) (h : Handle) (hk : w.timers.get k = some h) :
    ∀ x ∈ (clearTimer w k).pending, x.handle ≠ h := by
  simp only [clearTimer, hk]
  exact not_mem_clearTimeout _ _

/-- C8 as stated fails on the code: tab 7 is armed, an update arrives without a
snapshot and the lookup by id fails; the decision for the absent tab is Skip,
yet after the handler the registry still holds the entry of tab 7 and its
timeout is still pending. -/
theorem C8_vanished_tab_keeps_timer :
    decision Example.host Example.armed.state none = .skip ∧
    (run Example.host Example.armed
      [.tabUpdated 7 Example.complete none]).awaiting = [.handleTab 7] ∧
    (run Example.host Example.armed
      [.tabUpdated 7 Example.complete none, .lookupResolves 0 none]).timers.get 7 = some 0 ∧
    (run Example.host Example.armed
      [.tabUpdated 7 Example.complete none, .lookupResolves 0 none]).pending
      = [{ handle := 0, tabId := 7, delayMs := .fin 5000 }] := by
  refine ⟨by decide, by decide, by decide, by decide!⟩

/-- C8, amended: when the snapshot that `handleTab` evaluates is present
(supplied with the event, or fetched by id) and the decision is Skip,
`handleTab` runs `clearTimer`: the registry holds no entry for the tab
afterwards, the timeout it recorded is no longer pending and no close is
requested.  When no snapshot is supplied and the lookup fails, `handleTab`
returns at once: nothing is closed and the registry and the pending timeouts
stay as they were. -/
theorem C8_skip_cancels_timer (H : Host) (w : World) (tabId : TabId) (t : Tab)
    (hs : decision H w.state (some t) = .skip) :
    (handleTab H w tabId (some t) = clearTimer w tabId ∧
      (handleTab H w tabId (some t)).timers.get tabId = none ∧
      (handleTab H w tabId (some t)).closes = w.closes ∧
      (∀ h, w.timers.get tabId = some h →
        ∀ x ∈ (handleTab H w tabId (some t)).pending, x.handle ≠ h)) ∧
    (∀ i, w.awaiting.get? i = some (.handleTab tabId) →
      (step H w (.lookupResolves i (some t))).timers.get tabId = none ∧
      (step H w (.lookupResolves i (some t))).closes = w.closes ∧
      (∀ h, w.timers.get tabId = some h →
        ∀ x ∈ (step H w (.lookupResolves i (some t))).pending, x.handle ≠ h)) ∧
    (∀ i, w.awaiting.get? i = some (.handleTab tabId) →
      step H w (.lookupResolves i none) = { w with awaiting := w.awaiting.eraseIdx i }) := by
  have hsc : shouldClose H w.state (some t) = false := by
    cases h : shouldClose H w.state (some t) with
    | false => rfl
    | true =>
      simp only [decision, h] at hs
      by_cases hm : w.state.mode = .immediate <;> simp [hm] at hs
  refine ⟨?_, ?_, ?_⟩
  · have he : handleTab H w tabId (some t) = clearTimer w tabId := by
      simp [handleTab, handleTabResume, hsc]
    rw [he]
    exact ⟨rfl, clearTimer_get _ _, clearTimer_closes _ _, fun h hh => clearTimer_pending _ _ _ hh⟩
  · intro i hk
    have he : step H w (.lookupResolves i (some t)) =
        clearTimer { w with awaiting := w.awaiting.eraseIdx i } tabId := by
      simp only [step, hk, handleTabResume]
      simp [hsc]
    rw [he]
    exact ⟨clearTimer_get _ _, clearTimer_closes _ _, fun h hh => clearTimer_pending _ _ _ hh⟩
  · intro i hk
    simp only [step, hk, handleTabResume]

/-- Witness for C8: tab 7 is armed and moves to a page that does not match; the
update cancels timeout 0, supplied with the event or fetched by id. -/
theorem C8_skip_cancels_timer_witness :
    decision Example.host Example.armed.state (some Example.elsewhere) = .skip ∧
    Example.armed.timers = [(7, 0)] ∧
    (handleTab Example.host Example.armed 7 (some Example.elsewhere)).timers = [] ∧
    (handleTab Example.host Example.armed 7 (some Example.elsewhere)).pending = [] ∧
    (handleTab Example.host Example.armed 7 (some Example.elsewhere)).closes = [] ∧
    (run Example.host Example.armed
      [.tabUpdated 7 Example.complete none,
       .lookupResolves 0 (some Example.elsewhere)]).timers.get 7 = none := by
  have hs : decision Example.host Example.armed.state (some Example.elsewhere) = .skip := by
    decide
  have h := C8_skip_cancels_timer Example.host Example.armed 7 Example.elsewhere hs
  refine ⟨hs, by decide, ?_, ?_, h.1.2.2.1.trans (by decide), by decide⟩
  · rw [h.1.1]; decide
  · rw [h.1.1]; decide


/-! ## What the handlers leave unchanged -/

theorem scheduleIdleClose_frame (w : World) (k : TabId) :
    (scheduleIdleClose w k).closes = w.closes ∧ (scheduleIdleClose w k).state = w.state ∧
    (scheduleIdleClose w k).awaiting = w.awaiting := by
  unfold scheduleIdleClose
  split <;> simp [setTimeout]

theorem handleTabResume_state (H : Host) (w : World) (k : TabId) (tab : Option Tab) :
    (handleTabResume H w k tab).state = w.state ∧
    (handleTabResume H w k tab).awaiting = w.awaiting := by
  cases tab with
  | none => exact ⟨rfl, rfl⟩
  | some t =>
    simp only [handleTabResume]
    split
    · exact ⟨clearTimer_state _ _, clearTimer_awaiting _ _⟩
    · split
      · exact ⟨rfl, rfl⟩
      · exact ⟨(scheduleIdleClose_frame _ _).2.1, (scheduleIdleClose_frame _ _).2.2⟩

theorem handleTabResume_closes_idle (H : Host) (w : World) (k : TabId) (tab : Option Tab)
    (hm : w.state.mode = .idle) : (handleTabResume H w k tab).closes = w.closes := by
  cases tab with
  | none => rfl
  | some t =>
    simp only [handleTabResume, hm]
    split
    · exact clearTimer_closes _ _
    · simp [(scheduleIdleClose_frame _ _).1]

theorem runScanAllTabs_idle (H : Host) (tabs : List Tab) (w : World) (hm : w.state.mode = .idle) :
    (runScanAllTabs H w tabs).closes = w.closes ∧ (runScanAllTabs H w tabs).state = w.state ∧
    (runScanAllTabs H w tabs).awaiting = w.awaiting := by
  induction tabs generalizing w with
  | nil => exact ⟨rfl, rfl, rfl⟩
  | cons t ts ih =>
    have h1 := handleTabResume_state H w t.id (some t)
    have h2 := handleTabResume_closes_idle H w t.id (some t) hm
    have h3 := ih (handleTabResume H w t.id (some t)) (by rw [h1.1]; exact hm)
    simp only [runScanAllTabs, List.foldl_cons, handleTab] at h3 ⊢
    exact ⟨h3.1.trans h2, h3.2.1.trans h1.1, h3.2.2.trans h1.2⟩

theorem runScanAllTabs_awaiting (H : Host) (tabs : List Tab) (w : World) :
    (runScanAllTabs H w tabs).awaiting = w.awaiting := by
  induction tabs generalizing w with
  | nil => rfl
  | cons t ts ih =>
    have h1 := handleTabResume_state H w t.id (some t)
    have h3 := ih (handleTabResume H w t.id (some t))
    simp only [runScanAllTabs, List.foldl_cons, handleTab] at h3 ⊢
    exact h3.trans h1.2

theorem applyConfig_frame (H : Host) (w : World) (c : RawConfig) :
    (applyConfig H w c).closes = w.closes ∧ (applyConfig H w c).awaiting = w.awaiting :=
  ⟨rfl, rfl⟩

theorem tickResume_awaiting (H : Host) (w : World) (k : TabId) (d : JsNum)
    (latest : Option Tab) : (tickResume H w k d latest).awaiting = w.awaiting := by
  cases latest with
  | none => rfl
  | some t =>
    simp only [tickResume]
    split
    · rfl
    · split <;> rfl

theorem NoActivated_eraseIdx (w : World) (i : Nat) (hn : NoActivated w) :
    ∀ tabId : TabId, Cont.activated tabId ∉ w.awaiting.eraseIdx i :=
  fun tabId hmem => hn tabId (List.mem_of_mem_eraseIdx hmem)

/-! ## Idle mode never closes the tab in view (C10) -/

theorem step_closes_idle (H : Host) (w : World) (e : Event)
    (hm : w.state.mode = .idle) (hc : w.state.closeOnClick = false) (hn : NoActivated w) :
    (step H w e).closes = w.closes ∨
      ∃ i tabId d t, e = .lookupResolves i (some t) ∧
        w.awaiting.get? i = some (.tick tabId d) ∧
        shouldClose H w.state (some t) = true ∧ t.active = false ∧
        (step H w e).closes = w.closes ++ [tabId] := by
  cases e with
  | configLoaded c => exact Or.inl rfl
  | storageChanged changes area =>
    left
    simp only [step, onStorageChanged]
    split <;> rfl
  | tabCreated tab => exact Or.inl (handleTabResume_closes_idle H w tab.id (some tab) hm)
  | tabUpdated tabId ci tab =>
    left
    simp only [step, onUpdated]
    split
    · rfl
    · cases tab with
      | none => rfl
      | some t => exact handleTabResume_closes_idle H w tabId (some t) hm
  | tabRemoved tabId => exact Or.inl (clearTimer_closes _ _)
  | tabActivated tabId =>
    left
    simp [step, onActivated, hc]
  | message runScan =>
    left
    cases runScan <;> rfl
  | timerFires h =>
    left
    simp only [step]
    split <;> rfl
  | lookupResolves i r =>
    cases hk : w.awaiting.get? i with
    | none => left; simp only [step, hk]
    | some k =>
      cases k with
      | tick tabId d =>
        cases r with
        | none => left; simp only [step, hk, tickResume]
        | some t =>
          have he : step H w (.lookupResolves i (some t)) =
              tickResume H { w with awaiting := w.awaiting.eraseIdx i } tabId d (some t) := by
            simp only [step, hk]
          by_cases hs : shouldClose H w.state (some t) = true
          · by_cases ha : t.active = true
            · left
              rw [he]
              simp [tickResume, hs, ha, setTimeout]
            · right
              have ha2 : t.active = false := by simpa using ha
              refine ⟨i, tabId, d, t, rfl, hk, hs, ha2, ?_⟩
              rw [he]
              simp [tickResume, hs, ha2, closeTab]
          · left
            have hs2 : shouldClose H w.state (some t) = false := by simpa using hs
            rw [he]
            simp [tickResume, hs2]
      | handleTab tabId =>
        left
        simp only [step, hk]
        exact handleTabResume_closes_idle H _ tabId r hm
      | activated tabId => exact absurd (List.get?_mem hk) (hn tabId)
      | scan => left; simp only [step, hk]
  | queryResolves i r =>
    left
    cases hk : w.awaiting.get? i with
    | none => simp only [step, hk]
    | some k =>
      cases k with
      | scan =>
        cases r with
        | none => simp only [step, hk]
        | some tabs =>
          simp only [step, hk]
          exact (runScanAllTabs_idle H tabs { w with awaiting := w.awaiting.eraseIdx i } hm).1
      | tick tabId d => simp only [step, hk]
      | handleTab tabId => simp only [step, hk]
      | activated tabId => simp only [step, hk]

theorem step_noActivated (H : Host) (w : World) (e : Event)
    (hc : w.state.closeOnClick = false) (hn : NoActivated w) : NoActivated (step H w e) := by
  have happ : ∀ k : Cont, (∀ tabId, k ≠ .activated tabId) →
      ∀ tabId : TabId, Cont.activated tabId ∉ w.awaiting ++ [k] := by
    intro k hk tabId hmem
    rcases List.mem_append.1 hmem with h | h
    · exact hn tabId h
    · exact hk tabId (List.mem_singleton.1 h).symm
  cases e with
  | configLoaded c => exact hn
  | storageChanged changes area =>
    simp only [step, onStorageChanged]
    split <;> exact hn
  | tabCreated tab =>
    intro tabId
    simp only [step, handleTab, (handleTabResume_state H w tab.id (some tab)).2]
    exact hn tabId
  | tabUpdated tabId ci tab =>
    simp only [step, onUpdated]
    split
    · exact hn
    · cases tab with
      | none => exact happ _ (fun _ h => by cases h)
      | some t =>
        intro k
        simp only [handleTab, (handleTabResume_state H w tabId (some t)).2]
        exact hn k
  | tabRemoved tabId =>
    intro k
    simp only [step, clearTimer_awaiting]
    exact hn k
  | tabActivated tabId =>
    simp only [step, onActivated, hc]
    exact hn
  | message runScan =>
    cases runScan
    · exact hn
    · exact happ _ (fun _ h => by cases h)
  | timerFires h =>
    simp only [step]
    split
    · exact happ _ (fun _ h => by cases h)
    · exact hn
  | lookupResolves i r =>
    have he := NoActivated_eraseIdx w i hn
    cases hk : w.awaiting.get? i with
    | none => simp only [step, hk]; exact hn
    | some k =>
      cases k with
      | tick tabId d =>
        intro j
        simp only [step, hk, tickResume_awaiting]
        exact he j
      | handleTab tabId =>
        intro j
        simp only [step, hk, (handleTabResume_state H _ tabId r).2]
        exact he j
      | activated tabId => exact absurd (List.get?_mem hk) (hn tabId)
      | scan => simp only [step, hk]; exact hn
  | queryResolves i r =>
    have he := NoActivated_eraseIdx w i hn
    cases hk : w.awaiting.get? i with
    | none => simp only [step, hk]; exact hn
    | some k =>
      cases k with
      | scan =>
        cases r with
        | none =>
          intro j
          simp only [step, hk]
          exact he j
        | some tabs =>
          intro j
          simp only [step, hk]
          rw [runScanAllTabs_awaiting H tabs { w with awaiting := w.awaiting.eraseIdx i }]
          exact he j
      | tick tabId d => simp only [step, hk]; exact hn
      | handleTab tabId => simp only [step, hk]; exact hn
      | activated tabId => simp only [step, hk]; exact hn

/-- C10 as stated fails on the code: tab 7 is activated while `closeOnClick` is
enabled, and the option is disabled before the lookup of the listener settles.
The world is then in idle mode with `closeOnClick` disabled, and the resumption
of the listener requests the close of tab 7, whose snapshot is active. -/
theorem C10_stale_activation_closes_active_tab :
    Reachable Example.host Example.disabled ∧
    Example.disabled.state.mode = .idle ∧
    Example.disabled.state.closeOnClick = false ∧
    Example.disabled.closes = [] ∧
    (Example.page true false).active = true ∧
    (step Example.host Example.disabled
      (.lookupResolves 0 (some (Example.page true false)))).closes = [7] := by
  refine ⟨?_, by decide, by decide, by decide, by decide, by decide⟩
  exact reachable_run _ _ _ Reachable.initial

/-- C10, amended: in idle mode with `closeOnClick` disabled, and while no
tab-activated listener admitted earlier is still waiting for its lookup, a
transition requests a close only if it is the resumption of an idle timer
callback whose freshly fetched snapshot passes `shouldClose` and is not active;
tab create/update events and manual scans request no close; and no transition
makes a tab-activated listener wait. -/
theorem C10_idle_closes_only_inactive (H : Host) (w : World) (e : Event)
    (hm : w.state.mode = .idle) (hc : w.state.closeOnClick = false) (hn : NoActivated w) :
    ((step H w e).closes = w.closes ∨
      ∃ i tabId d t, e = .lookupResolves i (some t) ∧
        w.awaiting.get? i = some (.tick tabId d) ∧
        shouldClose H w.state (some t) = true ∧ t.active = false ∧
        (step H w e).closes = w.closes ++ [tabId]) ∧
    (∀ tab, (step H w (.tabCreated tab)).closes = w.closes) ∧
    (∀ tabId changeInfo tab, (step H w (.tabUpdated tabId changeInfo tab)).closes = w.closes) ∧
    (∀ i tabs, (step H w (.queryResolves i tabs)).closes = w.closes) ∧
    NoActivated (step H w e) := by
  refine ⟨step_closes_idle H w e hm hc hn, ?_, ?_, ?_, step_noActivated H w e hc hn⟩
  · intro tab
    rcases step_closes_idle H w (.tabCreated tab) hm hc hn with h | ⟨_, _, _, _, h, _⟩
    · exact h
    · cases h
  · intro tabId changeInfo tab
    rcases step_closes_idle H w (.tabUpdated tabId changeInfo tab) hm hc hn with
      h | ⟨_, _, _, _, h, _⟩
    · exact h
    · cases h
  · intro i tabs
    rcases step_closes_idle H w (.queryResolves i tabs) hm hc hn with h | ⟨_, _, _, _, h, _⟩
    · exact h
    · cases h

/-- Witness for C10: tab 7 is armed in idle mode with `closeOnClick` disabled
and its callback waits for its lookup; the callback closes the tab when the
snapshot is inactive and re-arms it when the snapshot is active. -/
theorem C10_idle_closes_only_inactive_witness :
    Example.fired.state.mode = .idle ∧
    Example.fired.state.closeOnClick = false ∧
    NoActivated Example.fired ∧
    (step Example.host Example.fired
      (.lookupResolves 0 (some (Example.page false false)))).closes = [7] ∧
    (step Example.host Example.fired
      (.lookupResolves 0 (some (Example.page true false)))).closes = [] ∧
    (step Example.host Example.fired
      (.tabUpdated 7 Example.complete (some (Example.page true false)))).closes = [] ∧
    NoActivated (step Example.host Example.fired
      (.lookupResolves 0 (some (Example.page false false)))) := by
  have hn : NoActivated Example.fired := by
    intro tabId hmem
    have ha : Example.fired.awaiting = [.tick 7 (.fin 5000)] := by decide!
    rw [ha] at hmem
    simp at hmem
  have h := C10_idle_closes_only_inactive Example.host Example.fired
    (.lookupResolves 0 (some (Example.page false false))) (by decide) (by decide) hn
  exact ⟨by decide, by decide, hn, by decide, by decide, h.2.2.1 _ _ _, h.2.2.2.2⟩


/-! ## Handles are never handed out twice -/

namespace Timers

theorem mem_delete (m : Timers) (k : TabId) (e : TabId × Handle) (h : e ∈ m.delete k) :
    e ∈ m := by
  induction m with
  | nil => simp [Timers.delete] at h
  | cons a m ih =>
    simp only [Timers.delete] at h
    split at h
    · exact List.mem_cons_of_mem _ (ih h)
    · rcases List.mem_cons.1 h with h | h
      · exact h ▸ List.mem_cons_self _ _
      · exact List.mem_cons_of_mem _ (ih h)

theorem mem_set (m : Timers) (k : TabId) (v : Handle) (e : TabId × Handle)
    (h : e ∈ m.set k v) : e ∈ m ∨ e = (k, v) := by
  induction m with
  | nil =>
    simp only [Timers.set, List.mem_singleton] at h
    exact Or.inr h
  | cons a m ih =>
    simp only [Timers.set] at h
    split at h
    · rcases List.mem_cons.1 h with h | h
      · exact Or.inr h
      · exact Or.inl (List.mem_cons_of_mem _ h)
    · rcases List.mem_cons.1 h with h | h
      · exact Or.inl (h ▸ List.mem_cons_self _ _)
      · rcases ih h with h | h
        · exact Or.inl (List.mem_cons_of_mem _ h)
        · exact Or.inr h

theorem mem_of_get (m : Timers) (k : TabId) (v : Handle) (h : m.get k = some v) :
    (k, v) ∈ m := by
  induction m with
  | nil => simp [Timers.get] at h
  | cons a m ih =>
    obtain ⟨a1, a2⟩ := a
    simp only [Timers.get] at h
    split at h
    · rename_i hk
      have hk' : a1 = k := by simpa using hk
      have hv : a2 = v := by simpa using h
      subst hk'; subst hv
      exact List.mem_cons_self _ _
    · exact List.mem_cons_of_mem _ (ih h)

end Timers

theorem mem_clearTimeout (pending : List Timeout) (h : Handle) (t : Timeout)
    (ht : t ∈ clearTimeout pending h) : t ∈ pending :=
  (List.mem_filter.1 ht).1

theorem mem_clearAll (m : Timers) (pending : List Timeout) (t : Timeout)
    (ht : t ∈ m.foldl (fun p e => clearTimeout p e.2) pending) :
    t ∈ pending ∧ ∀ e ∈ m, t.handle ≠ e.2 := by
  induction m generalizing pending with
  | nil => exact ⟨ht, fun e he => by cases he⟩
  | cons a m ih =>
    have h := ih (clearTimeout pending a.2) ht
    refine ⟨mem_clearTimeout _ _ _ h.1, ?_⟩
    intro e he
    rcases List.mem_cons.1 he with he | he
    · subst he
      exact not_mem_clearTimeout _ _ _ h.1
    · exact h.2 e he

namespace Ext

theorem refl (w : World) : Ext w w :=
  ⟨Nat.le_refl _, fun _ he => Or.inl he, fun _ ht => Or.inl ht⟩

theorem trans {a b c : World} (h1 : Ext a b) (h2 : Ext b c) : Ext a c := by
  refine ⟨Nat.le_trans h1.next h2.next, ?_, ?_⟩
  · intro e he
    rcases h2.timers e he with h | ⟨h, h'⟩
    · rcases h1.timers e h with h | ⟨h, h'⟩
      · exact Or.inl h
      · exact Or.inr ⟨h, Nat.lt_of_lt_of_le h' h2.next⟩
    · exact Or.inr ⟨Nat.le_trans h1.next h, h'⟩
  · intro t ht
    rcases h2.pending t ht with h | ⟨h, h'⟩
    · rcases h1.pending t h with h | ⟨h, h'⟩
      · exact Or.inl h
      · exact Or.inr ⟨h, Nat.lt_of_lt_of_le h' h2.next⟩
    · exact Or.inr ⟨Nat.le_trans h1.next h, h'⟩

/-- A handler that only removes registry entries and pending timeouts. -/
theorem of_subset {w w' : World} (hn : w'.nextHandle = w.nextHandle)
    (ht : ∀ e ∈ w'.timers, e ∈ w.timers) (hp : ∀ t ∈ w'.pending, t ∈ w.pending) : Ext w w' :=
  ⟨Nat.le_of_eq hn.symm, fun e he => Or.inl (ht e he), fun t h => Or.inl (hp t h)⟩

end Ext

theorem ext_clearTimer (w : World) (k : TabId) : Ext w (clearTimer w k) := by
  unfold clearTimer
  cases w.timers.get k with
  | none => exact Ext.refl w
  | some h =>
    exact Ext.of_subset rfl (fun e he => Timers.mem_delete _ _ _ he)
      (fun t ht => mem_clearTimeout _ _ _ ht)

theorem ext_clearAllTimers (w : World) : Ext w (clearAllTimers w) :=
  Ext.of_subset rfl (fun e he => by cases he) (fun t ht => (mem_clearAll _ _ _ ht).1)

theorem ext_arm (w : World) (k : TabId) (d : JsNum) :
    Ext w { (setTimeout w k d).2 with
            timers := (setTimeout w k d).2.timers.set k (setTimeout w k d).1 } := by
  refine ⟨Nat.le_succ _, ?_, ?_⟩
  · intro e he
    rcases Timers.mem_set _ _ _ _ he with h | h
    · exact Or.inl h
    · subst h
      exact Or.inr ⟨Nat.le_refl _, Nat.lt_succ_self _⟩
  · intro t ht
    rcases List.mem_append.1 ht with h | h
    · exact Or.inl h
    · have := List.mem_singleton.1 h
      subst this
      exact Or.inr ⟨Nat.le_refl _, Nat.lt_succ_self _⟩

theorem ext_scheduleIdleClose (w : World) (k : TabId) : Ext w (scheduleIdleClose w k) := by
  unfold scheduleIdleClose
  split
  · exact Ext.refl w
  · exact ext_arm w k _

theorem ext_tickResume (H : Host) (w : World) (k : TabId) (d : JsNum) (latest : Option Tab) :
    Ext w (tickResume H w k d latest) := by
  cases latest with
  | none => exact Ext.of_subset rfl (fun e he => Timers.mem_delete _ _ _ he) (fun _ h => h)
  | some t =>
    simp only [tickResume]
    split
    · exact Ext.of_subset rfl (fun e he => Timers.mem_delete _ _ _ he) (fun _ h => h)
    · split
      · exact ext_arm w k d
      · exact Ext.of_subset rfl (fun e he => Timers.mem_delete _ _ _ he) (fun _ h => h)

theorem ext_handleTabResume (H : Host) (w : World) (k : TabId) (tab : Option Tab) :
    Ext w (handleTabResume H w k tab) := by
  cases tab with
  | none => exact Ext.refl w
  | some t =>
    simp only [handleTabResume]
    split
    · exact ext_clearTimer w k
    · split
      · exact Ext.of_subset rfl (fun _ h => h) (fun _ h => h)
      · exact ext_scheduleIdleClose w k

theorem ext_activatedResume (H : Host) (w : World) (k : TabId) (tab : Option Tab) :
    Ext w (activatedResume H w k tab) := by
  unfold activatedResume
  split
  · exact Ext.trans (ext_clearTimer w k) (Ext.of_subset rfl (fun _ h => h) (fun _ h => h))
  · exact Ext.refl w

theorem ext_runScanAllTabs (H : Host) (tabs : List Tab) (w : World) : Ext w (runScanAllTabs H w tabs) := by
  induction tabs generalizing w with
  | nil => exact Ext.refl w
  | cons t ts ih =>
    have h := ih (handleTabResume H w t.id (some t))
    simp only [runScanAllTabs, List.foldl_cons, handleTab] at h ⊢
    exact Ext.trans (ext_handleTabResume H w t.id (some t)) h

theorem ext_applyConfig (H : Host) (w : World) (c : RawConfig) : Ext w (applyConfig H w c) :=
  Ext.trans (ext_clearAllTimers w) (Ext.of_subset rfl (fun _ h => h) (fun _ h => h))

theorem ext_step (H : Host) (w : World) (e : Event) : Ext w (step H w e) := by
  have hsame : ∀ a : List Cont, Ext w { w with awaiting := a } :=
    fun a => Ext.of_subset rfl (fun _ h => h) (fun _ h => h)
  cases e with
  | configLoaded c => exact ext_applyConfig H w c
  | storageChanged changes area =>
    simp only [step, onStorageChanged]
    split
    · exact Ext.refl w
    · exact ext_applyConfig H w _
  | tabCreated tab => exact ext_handleTabResume H w tab.id (some tab)
  | tabUpdated tabId ci tab =>
    simp only [step, onUpdated]
    split
    · exact Ext.refl w
    · cases tab with
      | none => exact hsame _
      | some t => exact ext_handleTabResume H w tabId (some t)
  | tabRemoved tabId => exact ext_clearTimer w tabId
  | tabActivated tabId =>
    simp only [step, onActivated]
    split
    · exact Ext.refl w
    · exact hsame _
  | message runScan =>
    cases runScan
    · exact Ext.refl w
    · exact hsame _
  | timerFires h =>
    simp only [step]
    split
    · exact Ext.of_subset rfl (fun _ h => h) (fun t ht => mem_clearTimeout _ _ _ ht)
    · exact Ext.refl w
  | lookupResolves i r =>
    cases hk : w.awaiting.get? i with
    | none => simp only [step, hk]; exact Ext.refl w
    | some k =>
      cases k with
      | tick tabId d =>
        simp only [step, hk]
        exact Ext.trans (hsame _) (ext_tickResume H _ tabId d r)
      | handleTab tabId =>
        simp only [step, hk]
        exact Ext.trans (hsame _) (ext_handleTabResume H _ tabId r)
      | activated tabId =>
        simp only [step, hk]
        exact Ext.trans (hsame _) (ext_activatedResume H _ tabId r)
      | scan => simp only [step, hk]; exact Ext.refl w
  | queryResolves i r =>
    cases hk : w.awaiting.get? i with
    | none => simp only [step, hk]; exact Ext.refl w
    | some k =>
      cases k with
      | scan =>
        cases r with
        | none =>
          simp only [step, hk]
          exact Ext.of_subset rfl (fun _ h => h) (fun _ h => h)
        | some tabs =>
          simp only [step, hk]
          exact Ext.trans (hsame (w.awaiting.eraseIdx i))
            (Ext.trans (ext_runScanAllTabs H tabs _) (Ext.of_subset rfl (fun _ h => h) (fun _ h => h)))
      | tick tabId d => simp only [step, hk]; exact Ext.refl w
      | handleTab tabId => simp only [step, hk]; exact Ext.refl w
      | activated tabId => simp only [step, hk]; exact Ext.refl w

theorem ext_run (H : Host) (events : List Event) (w : World) : Ext w (run H w events) := by
  induction events generalizing w with
  | nil => exact Ext.refl w
  | cons e es ih => exact Ext.trans (ext_step H w e) (ih (step H w e))

theorem spent_of_ext {w w' : World} {h : Handle} (hs : Spent w h) (he : Ext w w') :
    Spent w' h := by
  refine ⟨Nat.lt_of_lt_of_le hs.1 he.next, ?_⟩
  intro t ht
  rcases he.pending t ht with h1 | ⟨h1, _⟩
  · exact hs.2 t h1
  · exact fun heq => absurd (heq ▸ h1) (Nat.not_le_of_lt hs.1)

theorem reachable_handles (H : Host) (w : World) (hw : Reachable H w) :
    ∀ e ∈ w.timers, e.2 < w.nextHandle := by
  induction hw with
  | initial => intro e he; cases he
  | step w ev _ ih =>
    intro e he
    rcases (ext_step H w ev).timers e he with h | ⟨_, h⟩
    · exact Nat.lt_of_lt_of_le (ih e h) (ext_step H w ev).next
    · exact h

theorem timerFires_of_spent (H : Host) (w : World) (h : Handle) (hs : Spent w h) :
    step H w (.timerFires h) = w := by
  have hnone : w.pending.find? (fun t => t.handle == h) = none := by
    rw [List.find?_eq_none]
    intro t ht
    simpa using hs.2 t ht
  simp only [step, hnone]


/-! ## What cancellation achieves (C3, amended) -/

theorem spent_clearTimer (H : Host) (w : World) (hw : Reachable H w) (k : TabId) (h : Handle)
    (hk : w.timers.get k = some h) : Spent (clearTimer w k) h := by
  refine ⟨?_, clearTimer_pending w k h hk⟩
  exact Nat.lt_of_lt_of_le (reachable_handles H w hw _ (Timers.mem_of_get _ _ _ hk))
    (ext_clearTimer w k).next

theorem spent_clearAllTimers (H : Host) (w : World) (hw : Reachable H w)
    (e : TabId × Handle) (he : e ∈ w.timers) : Spent (clearAllTimers w) e.2 :=
  ⟨reachable_handles H w hw e he, fun _ ht => (mem_clearAll _ _ _ ht).2 e he⟩

theorem tick_acts_on_snapshot (H : Host) (v : World) (i : Nat) (tabId : TabId) (d : JsNum)
    (latest : Option Tab) (hk : v.awaiting.get? i = some (.tick tabId d)) :
    ((step H v (.lookupResolves i latest)).closes ≠ v.closes →
      ∃ t, latest = some t ∧ shouldClose H v.state (some t) = true ∧ t.active = false) ∧
    ((step H v (.lookupResolves i latest)).timers ≠ v.timers.delete tabId →
      ∃ t, latest = some t ∧ shouldClose H v.state (some t) = true ∧ t.active = true) := by
  have he : step H v (.lookupResolves i latest) =
      tickResume H { v with awaiting := v.awaiting.eraseIdx i } tabId d latest := by
    simp only [step, hk]
  rw [he]
  cases latest with
  | none => exact ⟨fun h => absurd rfl h, fun h => absurd rfl h⟩
  | some t =>
    by_cases hs : shouldClose H v.state (some t) = true
    · by_cases ha : t.active = true
      · refine ⟨fun h => ?_, fun _ => ⟨t, rfl, hs, ha⟩⟩
        exact absurd (by simp [tickResume, hs, ha, setTimeout]) h
      · have ha2 : t.active = false := by simpa using ha
        refine ⟨fun _ => ⟨t, rfl, hs, ha2⟩, fun h => ?_⟩
        exact absurd (by simp [tickResume, hs, ha2, closeTab]) h
    · have hs2 : shouldClose H v.state (some t) = false := by simpa using hs
      refine ⟨fun h => ?_, fun h => ?_⟩
      · exact absurd (by simp [tickResume, hs2]) h
      · exact absurd (by simp [tickResume, hs2]) h

/-- C3, amended: in every reachable world, once `clearTimer(tabId)` or
`clearAllTimers()` has run, the timeout that the registry recorded for an
affected tab is not pending, and it stays so whatever happens next: its
callback never starts.  A callback that had already started and waits for its
tab lookup is not cancelled; when it resumes it follows the fresh snapshot: it
requests a close only if the snapshot passes `shouldClose` and is not active,
and it writes a registry entry only if the snapshot passes and is active. -/
theorem C3_cancel_stops_pending_timers (H : Host) (w : World) (hw : Reachable H w)
    (tabId : TabId) (events : List Event) :
    (∀ h, w.timers.get tabId = some h →
      (∀ t ∈ (run H (clearTimer w tabId) events).pending, t.handle ≠ h) ∧
      step H (run H (clearTimer w tabId) events) (.timerFires h)
        = run H (clearTimer w tabId) events) ∧
    (∀ e ∈ w.timers,
      (∀ t ∈ (run H (clearAllTimers w) events).pending, t.handle ≠ e.2) ∧
      step H (run H (clearAllTimers w) events) (.timerFires e.2)
        = run H (clearAllTimers w) events) ∧
    (∀ (v : World) (i : Nat) (d : JsNum) (latest : Option Tab),
      v.awaiting.get? i = some (.tick tabId d) →
      ((step H v (.lookupResolves i latest)).closes ≠ v.closes →
        ∃ t, latest = some t ∧ shouldClose H v.state (some t) = true ∧ t.active = false) ∧
      ((step H v (.lookupResolves i latest)).timers ≠ v.timers.delete tabId →
        ∃ t, latest = some t ∧ shouldClose H v.state (some t) = true ∧ t.active = true)) := by
  refine ⟨?_, ?_, ?_⟩
  · intro h hk
    have hs := spent_of_ext (spent_clearTimer H w hw tabId h hk) (ext_run H events _)
    exact ⟨hs.2, timerFires_of_spent H _ h hs⟩
  · intro e he
    have hs := spent_of_ext (spent_clearAllTimers H w hw e he) (ext_run H events _)
    exact ⟨hs.2, timerFires_of_spent H _ e.2 hs⟩
  · intro v i d latest hk
    exact tick_acts_on_snapshot H v i tabId d latest hk

/-- Witness for C3: tab 7 is armed with timeout 0 and its timer is cleared;
timeout 0 is then never pending, also after the tab has been armed again, and
its expiry changes nothing. -/
theorem C3_cancel_stops_pending_timers_witness :
    Reachable Example.host Example.armed ∧
    Example.armed.timers.get 7 = some 0 ∧
    Example.armed.pending = [{ handle := 0, tabId := 7, delayMs := .fin 5000 }] ∧
    (∀ t ∈ (run Example.host (clearTimer Example.armed 7)
        [.tabUpdated 7 Example.complete (some (Example.page false false))]).pending,
      t.handle ≠ 0) ∧
    (run Example.host (clearTimer Example.armed 7)
      [.tabUpdated 7 Example.complete (some (Example.page false false)),
       .timerFires 0]).awaiting = [] := by
  have hw : Reachable Example.host Example.armed := reachable_run _ _ _ Reachable.initial
  have h := (C3_cancel_stops_pending_timers Example.host Example.armed hw 7
    [.tabUpdated 7 Example.complete (some (Example.page false false))]).1 0 (by decide)
  exact ⟨hw, by decide, by decide!, h.1, by decide⟩


/-! ## Reconfiguration (C4) -/

theorem applyConfig_state_eq (H : Host) (w : World) (c : RawConfig) :
    (applyConfig H w c).state =
      (match toNumber H c.delaySeconds with
        | some _ => fromRaw H c
        | none =>
          { fromRaw H c with
            delaySeconds := w.state.delaySeconds, closeOnClick := w.state.closeOnClick }) := by
  obtain ⟨ps, md, dl, cc⟩ := c
  have hmode : (if isIdleString md = true then Mode.idle else Mode.immediate) =
      (match md with
        | .str s => if s = "idle" then Mode.idle else Mode.immediate
        | _ => Mode.immediate) := by
    cases md <;> simp [isIdleString]
  cases hn : toNumber H dl with
  | none =>
    simp only [applyConfig, clearAllTimers, updateSettings, updatePatterns, fromRaw, hmode, hn,
      lastState]
    cases ps <;> rfl
  | some parsed =>
    have hdelay : (if (parsed.isFinite && parsed.gtZero) = true then parsed else JsNum.fin 30) =
        (match some parsed with
          | some (.fin q) => if 0 < q then JsNum.fin q else JsNum.fin 30
          | _ => JsNum.fin 30) := by
      cases parsed <;> simp [JsNum.isFinite, JsNum.gtZero]
    simp only [applyConfig, clearAllTimers, updateSettings, updatePatterns, fromRaw, hmode, hn,
      lastState, hdelay]
    cases ps <;> rfl

/-- When `Number(delaySeconds)` returns, `applyConfig` installs the normalised
configuration. -/
theorem applyConfig_state (H : Host) (w : World) (c : RawConfig) (parsed : JsNum)
    (hn : toNumber H c.delaySeconds = some parsed) :
    (applyConfig H w c).state = fromRaw H c := by
  rw [applyConfig_state_eq, hn]

/-- When `Number(delaySeconds)` throws, `applyConfig` has installed the patterns,
the rules and the mode, and the delay and the flag are the old ones. -/
theorem applyConfig_state_throws (H : Host) (w : World) (c : RawConfig)
    (hn : toNumber H c.delaySeconds = none) :
    (applyConfig H w c).state =
      { fromRaw H c with
        delaySeconds := w.state.delaySeconds, closeOnClick := w.state.closeOnClick } := by
  rw [applyConfig_state_eq, hn]

theorem applyConfig_rules (H : Host) (w : World) (c : RawConfig) :
    (applyConfig H w c).state.patterns = (fromRaw H c).patterns ∧
    (applyConfig H w c).state.regexes = (fromRaw H c).regexes ∧
    (applyConfig H w c).state.mode = (fromRaw H c).mode := by
  rw [applyConfig_state_eq]
  cases toNumber H c.delaySeconds <;> exact ⟨rfl, rfl, rfl⟩

theorem toNumber_eq_none (H : Host) (v : JsVal) :
    toNumber H v = none ↔ toPrimitiveThrows v = true := by
  cases v <;> simp [toNumber, toPrimitiveThrows]

/-- C4 as stated fails on the code: tab 7 was armed in idle mode, its timeout
has expired and its callback waits for its lookup when the configuration
changes.  The registry is empty after `applyConfig`, yet the timer armed before
the change is not cancelled: its callback resumes and closes the tab, or arms
the tab again with the delay of the old configuration. -/
theorem C4_earlier_callback_survives :
    Reachable Example.host Example.fired ∧
    (applyConfig Example.host Example.fired (Example.config "idle" 60 false)).timers = [] ∧
    (applyConfig Example.host Example.fired (Example.config "idle" 60 false)).state.delaySeconds
      = .fin 60 ∧
    (step Example.host (applyConfig Example.host Example.fired (Example.config "idle" 60 false))
      (.lookupResolves 0 (some (Example.page false false)))).closes = [7] ∧
    (step Example.host (applyConfig Example.host Example.fired (Example.config "idle" 60 false))
      (.lookupResolves 0 (some (Example.page true false)))).timers = [(7, 1)] ∧
    (step Example.host (applyConfig Example.host Example.fired (Example.config "idle" 60 false))
      (.lookupResolves 0 (some (Example.page true false)))).pending
      = [{ handle := 1, tabId := 7, delayMs := .fin 5000 }] := by
  refine ⟨?_, by decide, by decide!, by decide, by decide, by decide!⟩
  exact Reachable.step _ _ (reachable_run _ _ _ Reachable.initial)

/-- C4, amended: in every reachable world and for every configuration, after
`applyConfig` the registry is empty, every timeout that the registry recorded
is cancelled and never pending again (its callback never starts), the
patterns, the rules and the mode are those of the normalised new
configuration, and the decision for any tab is the one that the new
configuration gives.  When `Number(delaySeconds)` returns, the whole state is
the normalised new configuration; when it throws, the delay and the
close-on-click flag keep their old values.  Both the startup load and a change
in the `sync` area run `applyConfig`.  A callback that had already started
before the change is not covered: it resumes as usual. -/
theorem C4_applyConfig (H : Host) (w : World) (hw : Reachable H w) (c : RawConfig)
    (events : List Event) :
    (applyConfig H w c).timers = [] ∧
    (∀ e ∈ w.timers,
      (∀ t ∈ (applyConfig H w c).pending, t.handle ≠ e.2) ∧
      (∀ t ∈ (run H (applyConfig H w c) events).pending, t.handle ≠ e.2) ∧
      step H (run H (applyConfig H w c) events) (.timerFires e.2)
        = run H (applyConfig H w c) events) ∧
    (applyConfig H w c).state.patterns = (fromRaw H c).patterns ∧
    (applyConfig H w c).state.regexes = (fromRaw H c).regexes ∧
    (applyConfig H w c).state.mode = (fromRaw H c).mode ∧
    (∀ parsed, toNumber H c.delaySeconds = some parsed →
      (applyConfig H w c).state = fromRaw H c) ∧
    (toNumber H c.delaySeconds = none →
      (applyConfig H w c).state.delaySeconds = w.state.delaySeconds ∧
      (applyConfig H w c).state.closeOnClick = w.state.closeOnClick) ∧
    (toNumber H c.delaySeconds = none ↔ toPrimitiveThrows c.delaySeconds = true) ∧
    (∀ tab, decision H (applyConfig H w c).state tab = decision H (fromRaw H c) tab) ∧
    step H w (.configLoaded c) = applyConfig H w c ∧
    (∀ changes, step H w (.storageChanged changes "sync")
      = applyConfig H w (nextConfig w.state changes)) := by
  obtain ⟨hp, hr, hm⟩ := applyConfig_rules H w c
  refine ⟨rfl, ?_, hp, hr, hm, applyConfig_state H w c, ?_, toNumber_eq_none H _, ?_, rfl, ?_⟩
  · intro e he
    have h0 : Spent (applyConfig H w c) e.2 :=
      spent_of_ext (spent_clearAllTimers H w hw e he)
        (Ext.of_subset rfl (fun _ h => h) (fun _ h => h))
    have hs := spent_of_ext h0 (ext_run H events _)
    exact ⟨h0.2, hs.2, timerFires_of_spent H _ e.2 hs⟩
  · intro hn
    rw [applyConfig_state_throws H w c hn]
    exact ⟨rfl, rfl⟩
  · intro tab
    cases tab with
    | none => rfl
    | some t => simp only [decision, shouldClose, hr, hm]
  · intro changes
    simp [step, onStorageChanged]

/-- Witness for C4: tabs 7 and 8 are armed in idle mode with timeouts 0 and 1;
after a change to immediate mode the registry and the pending timeouts are
empty, neither timeout expires later, and tab 7 is closed at once on its next
update. -/
theorem C4_applyConfig_witness :
    Reachable Example.host Example.twoArmed ∧
    Example.twoArmed.timers = [(7, 0), (8, 1)] ∧
    (applyConfig Example.host Example.twoArmed (Example.config "immediate" 5 false)).timers
      = [] ∧
    (applyConfig Example.host Example.twoArmed (Example.config "immediate" 5 false)).pending
      = [] ∧
    step Example.host
      (run Example.host
        (applyConfig Example.host Example.twoArmed (Example.config "immediate" 5 false))
        [.timerFires 0]) (.timerFires 1)
      = run Example.host
        (applyConfig Example.host Example.twoArmed (Example.config "immediate" 5 false))
        [.timerFires 0] ∧
    (run Example.host
      (applyConfig Example.host Example.twoArmed (Example.config "immediate" 5 false))
      [.timerFires 0, .timerFires 1]).awaiting = [] ∧
    (run Example.host
      (applyConfig Example.host Example.twoArmed (Example.config "immediate" 5 false))
      [.timerFires 0, .timerFires 1,
       .tabUpdated 7 Example.complete (some (Example.page false false))]).closes = [7] := by
  have hw : Reachable Example.host Example.twoArmed :=
    Reachable.step _ _ (reachable_run _ _ _ Reachable.initial)
  have h := C4_applyConfig Example.host Example.twoArmed hw
    (Example.config "immediate" 5 false) [.timerFires 0]
  have h1 := (h.2.1 (8, 1) (by decide)).2.2
  exact ⟨hw, by decide, h.1, by decide, h1, by decide, by decide⟩


/-! ## Tab removal (C12) -/

/-- C12: the tab-removed listener is `clearTimer`.  Afterwards the registry has
no entry for the tab, the entries of all other tabs, the configuration and the
close requests are as before, and the timeout that was recorded for the tab
is no longer pending (the other timeouts stay).  When the tab had no entry the
world is unchanged. -/
theorem C12_tab_removed (H : Host) (w : World) (tabId : TabId) :
    step H w (.tabRemoved tabId) = clearTimer w tabId ∧
    (step H w (.tabRemoved tabId)).timers.get tabId = none ∧
    (∀ j, j ≠ tabId → (step H w (.tabRemoved tabId)).timers.get j = w.timers.get j) ∧
    (step H w (.tabRemoved tabId)).state = w.state ∧
    (step H w (.tabRemoved tabId)).closes = w.closes ∧
    (∀ h, w.timers.get tabId = some h →
      (step H w (.tabRemoved tabId)).pending = clearTimeout w.pending h ∧
      ∀ x ∈ (step H w (.tabRemoved tabId)).pending, x.handle ≠ h) ∧
    (w.timers.get tabId = none → step H w (.tabRemoved tabId) = w) := by
  have he : step H w (.tabRemoved tabId) = clearTimer w tabId := rfl
  rw [he]
  refine ⟨rfl, clearTimer_get _ _, ?_, clearTimer_state _ _, clearTimer_closes _ _, ?_, ?_⟩
  · intro j hj
    rw [clearTimer_timers]
    exact Timers.get_delete_of_ne _ _ _ hj
  · intro h hk
    refine ⟨?_, clearTimer_pending w tabId h hk⟩
    simp only [clearTimer, hk]
  · intro hk
    simp only [clearTimer, hk]

/-- Witness for C12: tabs 7 and 8 are armed; removing tab 7 clears its entry and
its timeout and leaves those of tab 8; removing a tab without entry changes
nothing. -/
theorem C12_tab_removed_witness :
    Example.twoArmed.timers = [(7, 0), (8, 1)] ∧
    (step Example.host Example.twoArmed (.tabRemoved 7)).timers = [(8, 1)] ∧
    (step Example.host Example.twoArmed (.tabRemoved 7)).pending
      = [{ handle := 1, tabId := 8, delayMs := .fin 5000 }] ∧
    (step Example.host Example.twoArmed (.tabRemoved 7)).closes = [] ∧
    step Example.host Example.twoArmed (.tabRemoved 9) = Example.twoArmed := by
  have h := C12_tab_removed Example.host Example.twoArmed 7
  have h9 := (C12_tab_removed Example.host Example.twoArmed 9).2.2.2.2.2.2 (by decide)
  refine ⟨by decide, by decide, ?_, h.2.2.2.2.1.trans (by decide), h9⟩
  exact ((h.2.2.2.2.2.1 0 (by decide)).1).trans (by decide!)

/-! ## Compiling the patterns (C13) -/

/-- C13: `updatePatterns` on a sequence of patterns keeps the sequence as
`state.patterns` and sets `state.regexes` to the patterns that compile, in
their original order: the rule list is a subsequence of the input, it contains
every pattern that compiles and none that does not. -/
theorem C13_updatePatterns (H : Host) (st : State) (xs : List JsVal) :
    (updatePatterns H st (.arr xs)).patterns = xs ∧
    (updatePatterns H st (.arr xs)).regexes = xs.filter H.compiles ∧
    List.Sublist (updatePatterns H st (.arr xs)).regexes xs ∧
    (∀ x, x ∈ (updatePatterns H st (.arr xs)).regexes ↔ x ∈ xs ∧ H.compiles x = true) ∧
    (updatePatterns H st (.arr xs)).regexes.length ≤ xs.length ∧
    (updatePatterns Example.host State.initial
      (.arr [.str "example\\.com", .str "(", .str "b"])).regexes
      = [.str "example\\.com", .str "b"] := by
  refine ⟨rfl, rfl, List.filter_sublist _, ?_, List.length_filter_le _ _, rfl⟩
  intro x
  simp [updatePatterns, List.mem_filter]

/-! ## Normalising the configuration (C14) -/

/-- Counterexample to C14: on the stored delay `{"toString": 1}` the call of
`updateSettings` ends with a `TypeError`; the mode is then set, and the delay
and the flag are those of the earlier state, 5 and false, although the raw
flag is true. -/
theorem C14_object_delay_throws :
    toNumber Example.host Example.objectDelay.delaySeconds = none ∧
    ∃ st : State,
      updateSettings Example.host
        (updatePatterns Example.host Example.armed.state Example.objectDelay.patterns)
        Example.objectDelay.mode Example.objectDelay.delaySeconds
        Example.objectDelay.closeOnClick = .error st ∧
      st.mode = .idle ∧ st.delaySeconds = .fin 5 ∧ st.closeOnClick = false ∧
      toBoolean Example.objectDelay.closeOnClick = true :=
  ⟨rfl, _, rfl, by decide, by decide!, by decide, rfl⟩

/-- C14, amended: normalisation returns whenever `Number(delaySeconds)` does,
which it does for every raw delay but an object with an own `toString`
property or an array that holds one, and it then treats the four fields
separately.  The result is the configuration that the specification describes;
the mode is idle exactly when the raw mode is the string `idle`; the delay is
the parsed number when that is finite and strictly positive and 30 otherwise;
the flag is the boolean coercion of the raw value, false when it is missing;
patterns that are not an array give no patterns and no rules.  Each field of
the result is the same for two raw configurations that agree on that field,
whatever the other fields and the earlier state are.  When
`Number(delaySeconds)` throws, the patterns, the rules and the mode are
normalised in the same way and the delay and the flag are left as they
were. -/
theorem C14_normalisation (H : Host) (st st' : State) (c c' : RawConfig) :
    (∀ parsed, toNumber H c.delaySeconds = some parsed →
      updateSettings H (updatePatterns H st c.patterns) c.mode c.delaySeconds c.closeOnClick
        = .ok (fromRaw H c)) ∧
    (toNumber H c.delaySeconds = none →
      updateSettings H (updatePatterns H st c.patterns) c.mode c.delaySeconds c.closeOnClick
        = .error { fromRaw H c with
            delaySeconds := st.delaySeconds, closeOnClick := st.closeOnClick }) ∧
    (toNumber H c.delaySeconds = none ↔ toPrimitiveThrows c.delaySeconds = true) ∧
    ((∀ keys, c.delaySeconds ≠ .obj keys) → (∀ xs, c.delaySeconds ≠ .arr xs) →
      ∃ parsed, toNumber H c.delaySeconds = some parsed) ∧
    ((fromRaw H c).mode = .idle ↔ c.mode = .str "idle") ∧
    ((fromRaw H c).mode = .immediate ↔ c.mode ≠ .str "idle") ∧
    (∀ parsed, toNumber H c.delaySeconds = some parsed →
      (fromRaw H c).delaySeconds =
        (if parsed.isFinite = true ∧ parsed.gtZero = true then parsed else .fin 30)) ∧
    (fromRaw H c).closeOnClick = toBoolean c.closeOnClick ∧
    toBoolean .undefined = false ∧
    ((∀ xs, c.patterns ≠ .arr xs) → (fromRaw H c).patterns = [] ∧ (fromRaw H c).regexes = []) ∧
    (c.patterns = c'.patterns →
      (lastState (updateSettings H (updatePatterns H st c.patterns) c.mode c.delaySeconds
        c.closeOnClick)).regexes =
      (lastState (updateSettings H (updatePatterns H st' c'.patterns) c'.mode c'.delaySeconds
        c'.closeOnClick)).regexes) ∧
    (c.mode = c'.mode →
      (lastState (updateSettings H (updatePatterns H st c.patterns) c.mode c.delaySeconds
        c.closeOnClick)).mode =
      (lastState (updateSettings H (updatePatterns H st' c'.patterns) c'.mode c'.delaySeconds
        c'.closeOnClick)).mode) ∧
    (c.delaySeconds = c'.delaySeconds →
      (fromRaw H c).delaySeconds = (fromRaw H c').delaySeconds) ∧
    (c.closeOnClick = c'.closeOnClick →
      (fromRaw H c).closeOnClick = (fromRaw H c').closeOnClick) := by
  have hst : ∀ (s : State) (d : RawConfig),
      lastState (updateSettings H (updatePatterns H s d.patterns) d.mode d.delaySeconds
        d.closeOnClick) = (applyConfig H { World.initial with state := s } d).state :=
    fun _ _ => rfl
  have hok : ∀ (s : State) (parsed : JsNum), toNumber H c.delaySeconds = some parsed →
      updateSettings H (updatePatterns H s c.patterns) c.mode c.delaySeconds c.closeOnClick
        = .ok (fromRaw H c) := by
    intro s parsed hn
    have h := applyConfig_state H { World.initial with state := s } c parsed hn
    rw [← hst] at h
    simp only [updateSettings, hn, lastState] at h ⊢
    rw [h]
  have herr : ∀ s : State, toNumber H c.delaySeconds = none →
      updateSettings H (updatePatterns H s c.patterns) c.mode c.delaySeconds c.closeOnClick
        = .error { fromRaw H c with
            delaySeconds := s.delaySeconds, closeOnClick := s.closeOnClick } := by
    intro s hn
    have h := applyConfig_state_throws H { World.initial with state := s } c hn
    rw [← hst] at h
    simp only [updateSettings, hn, lastState] at h ⊢
    rw [h]
  refine ⟨hok st, herr st, toNumber_eq_none H _, ?_, ?_, ?_, ?_, rfl, rfl, ?_, ?_, ?_, ?_, ?_⟩
  · intro ho ha
    cases hd : c.delaySeconds with
    | obj keys => exact absurd hd (ho keys)
    | arr xs => exact absurd hd (ha xs)
    | _ => exact ⟨_, rfl⟩
  · cases hm : c.mode <;> simp [fromRaw, hm]
  · cases hm : c.mode <;> simp [fromRaw, hm]
  · intro parsed hn
    cases parsed <;> simp [fromRaw, hn, JsNum.isFinite, JsNum.gtZero]
  · intro hp
    cases hc : c.patterns with
    | arr xs => exact absurd hc (hp xs)
    | _ => simp [fromRaw, hc]
  · intro hp
    rw [hst, hst, (applyConfig_rules H _ c).2.1, (applyConfig_rules H _ c').2.1]
    simp [fromRaw, hp]
  · intro hm
    rw [hst, hst, (applyConfig_rules H _ c).2.2, (applyConfig_rules H _ c').2.2]
    simp [fromRaw, hm]
  · intro hd
    simp [fromRaw, hd]
  · intro hb
    simp [fromRaw, hb]

/-- Witness for C14, amended: a stored configuration whose patterns are a
string, whose mode is a number, whose delay is negative and whose flag is
`null` is normalised to the defaults. -/
theorem C14_normalisation_witness :
    (fromRaw Example.host Example.malformed).patterns = [] ∧
    (fromRaw Example.host Example.malformed).regexes = [] ∧
    (fromRaw Example.host Example.malformed).mode = .immediate ∧
    (fromRaw Example.host Example.malformed).delaySeconds = .fin 30 ∧
    (fromRaw Example.host Example.malformed).closeOnClick = false ∧
    updateSettings Example.host
      (updatePatterns Example.host Example.armed.state Example.malformed.patterns)
      Example.malformed.mode Example.malformed.delaySeconds Example.malformed.closeOnClick
      = .ok (fromRaw Example.host Example.malformed) := by
  have h := C14_normalisation Example.host Example.armed.state State.initial
    Example.malformed Example.malformed
  have hp := h.2.2.2.2.2.2.2.2.2.1 (by intro xs hx; cases hx)
  exact ⟨hp.1, hp.2, by decide, by decide, by decide, h.1 _ rfl⟩


/-! ## The configuration changes only in `applyConfig` -/

theorem tickResume_state (H : Host) (w : World) (k : TabId) (d : JsNum)
    (latest : Option Tab) : (tickResume H w k d latest).state = w.state := by
  cases latest with
  | none => rfl
  | some t =>
    simp only [tickResume]
    split
    · rfl
    · split <;> rfl

theorem activatedResume_state (H : Host) (w : World) (k : TabId) (tab : Option Tab) :
    (activatedResume H w k tab).state = w.state := by
  unfold activatedResume
  split
  · exact clearTimer_state _ _
  · rfl

theorem runScanAllTabs_state (H : Host) (tabs : List Tab) (w : World) :
    (runScanAllTabs H w tabs).state = w.state := by
  induction tabs generalizing w with
  | nil => rfl
  | cons t ts ih =>
    have h1 := handleTabResume_state H w t.id (some t)
    have h3 := ih (handleTabResume H w t.id (some t))
    simp only [runScanAllTabs, List.foldl_cons, handleTab] at h3 ⊢
    exact h3.trans h1.1

theorem step_state (H : Host) (w : World) (e : Event) :
    (step H w e).state = w.state ∨ ∃ c, (step H w e).state = (applyConfig H w c).state := by
  cases e with
  | configLoaded c => exact Or.inr ⟨c, rfl⟩
  | storageChanged changes area =>
    simp only [step, onStorageChanged]
    split
    · exact Or.inl rfl
    · exact Or.inr ⟨_, rfl⟩
  | tabCreated tab => exact Or.inl (handleTabResume_state H w tab.id (some tab)).1
  | tabUpdated tabId ci tab =>
    left
    simp only [step, onUpdated]
    split
    · rfl
    · cases tab with
      | none => rfl
      | some t => exact (handleTabResume_state H w tabId (some t)).1
  | tabRemoved tabId => exact Or.inl (clearTimer_state _ _)
  | tabActivated tabId =>
    left
    simp only [step, onActivated]
    split <;> rfl
  | message runScan =>
    left
    cases runScan <;> rfl
  | timerFires h =>
    left
    simp only [step]
    split <;> rfl
  | lookupResolves i r =>
    left
    cases hk : w.awaiting.get? i with
    | none => simp only [step, hk]
    | some k =>
      cases k with
      | tick tabId d => simp only [step, hk, tickResume_state]
      | handleTab tabId => simp only [step, hk, (handleTabResume_state H _ tabId r).1]
      | activated tabId => simp only [step, hk, activatedResume_state]
      | scan => simp only [step, hk]
  | queryResolves i r =>
    left
    cases hk : w.awaiting.get? i with
    | none => simp only [step, hk]
    | some k =>
      cases k with
      | scan =>
        cases r with
        | none => simp only [step, hk]
        | some tabs => simp only [step, hk, runScanAllTabs_state]
      | tick tabId d => simp only [step, hk]
      | handleTab tabId => simp only [step, hk]
      | activated tabId => simp only [step, hk]

theorem fromRaw_delay (H : Host) (c : RawConfig) :
    (fromRaw H c).delaySeconds =
      (match toNumber H c.delaySeconds with
        | some (.fin q) => if 0 < q then .fin q else .fin 30
        | _ => .fin 30) := rfl

theorem normal_fromRaw (H : Host) (c : RawConfig) : Normal H (fromRaw H c) := by
  refine ⟨?_, ?_⟩
  · cases hc : c.patterns <;> simp [fromRaw, hc]
  · rw [fromRaw_delay]
    cases toNumber H c.delaySeconds with
    | none => exact ⟨30, by norm_num, rfl⟩
    | some parsed =>
      cases parsed with
      | fin q =>
        by_cases hq : 0 < q
        · exact ⟨q, hq, by simp [hq]⟩
        · exact ⟨30, by norm_num, by simp [hq]⟩
      | nan => exact ⟨30, by norm_num, rfl⟩
      | posInf => exact ⟨30, by norm_num, rfl⟩
      | negInf => exact ⟨30, by norm_num, rfl⟩

/-- The state stays normalised under `applyConfig`, also when it throws. -/
theorem normal_applyConfig (H : Host) (w : World) (c : RawConfig) (hn : Normal H w.state) :
    Normal H (applyConfig H w c).state := by
  cases ht : toNumber H c.delaySeconds with
  | some parsed =>
    rw [applyConfig_state H w c parsed ht]
    exact normal_fromRaw H c
  | none =>
    rw [applyConfig_state_throws H w c ht]
    exact ⟨(normal_fromRaw H c).1, hn.2⟩

theorem reachable_normal (H : Host) (w : World) (hw : Reachable H w) : Normal H w.state := by
  induction hw with
  | initial => exact ⟨rfl, 30, by norm_num, rfl⟩
  | step w e _ ih =>
    rcases step_state H w e with h | ⟨c, h⟩
    · rw [h]; exact ih
    · rw [h]; exact normal_applyConfig H w c ih

/-! ## The delay is always positive (C15) -/

/-- Counterexample to C15: with tab 7 armed under a delay of 5 s, a
configuration whose delay is the object `{"toString": 1}` leaves the delay at
5, not at 30: `Number` throws on the object and the assignment is never
reached. -/
theorem C15_object_delay_keeps_old :
    Reachable Example.host Example.armed ∧
    Example.armed.state.delaySeconds = .fin 5 ∧
    toNumber Example.host Example.objectDelay.delaySeconds = none ∧
    (step Example.host Example.armed (.configLoaded Example.objectDelay)).state.delaySeconds
      = .fin 5 ∧
    (step Example.host Example.armed (.configLoaded Example.objectDelay)).state.delaySeconds
      ≠ .fin 30 :=
  ⟨reachable_run _ _ _ Reachable.initial, by decide!, rfl, by decide!, by decide!⟩

/-- C15, amended: the initial delay is 30, and in every reachable world, so
after every configuration load or change, `state.delaySeconds` is a finite,
strictly positive number.  After `applyConfig` it is the raw delay parsed as a
number when that is finite and strictly positive, 30 when the parse is NaN,
infinite, zero or negative, as for a missing delay, and the delay of before
when the parse throws. -/
theorem C15_delay_positive (H : Host) (w : World) (hw : Reachable H w) (c : RawConfig) :
    State.initial.delaySeconds = .fin 30 ∧
    (∃ q : ℚ, 0 < q ∧ w.state.delaySeconds = .fin q) ∧
    (∃ q : ℚ, 0 < q ∧ (applyConfig H w c).state.delaySeconds = .fin q) ∧
    (∀ q : ℚ, toNumber H c.delaySeconds = some (.fin q) → 0 < q →
      (applyConfig H w c).state.delaySeconds = .fin q) ∧
    (∀ q : ℚ, toNumber H c.delaySeconds = some (.fin q) → q ≤ 0 →
      (applyConfig H w c).state.delaySeconds = .fin 30) ∧
    (toNumber H c.delaySeconds = some .nan →
      (applyConfig H w c).state.delaySeconds = .fin 30) ∧
    (toNumber H c.delaySeconds = some .posInf →
      (applyConfig H w c).state.delaySeconds = .fin 30) ∧
    (toNumber H c.delaySeconds = some .negInf →
      (applyConfig H w c).state.delaySeconds = .fin 30) ∧
    (c.delaySeconds = .undefined → (applyConfig H w c).state.delaySeconds = .fin 30) ∧
    (toNumber H c.delaySeconds = none →
      (applyConfig H w c).state.delaySeconds = w.state.delaySeconds) ∧
    (toNumber H c.delaySeconds = none ↔ toPrimitiveThrows c.delaySeconds = true) := by
  have hd : ∀ parsed, toNumber H c.delaySeconds = some parsed →
      (applyConfig H w c).state.delaySeconds =
        (match parsed with
          | .fin q => if 0 < q then .fin q else .fin 30
          | _ => .fin 30) := by
    intro parsed hn
    rw [applyConfig_state H w c parsed hn, fromRaw_delay, hn]
    cases parsed <;> rfl
  refine ⟨rfl, (reachable_normal H w hw).2,
    (normal_applyConfig H w c (reachable_normal H w hw)).2, ?_, ?_, ?_, ?_, ?_, ?_, ?_,
    toNumber_eq_none H _⟩
  · intro q hq hpos
    rw [hd _ hq]
    simp [hpos]
  · intro q hq hle
    rw [hd _ hq]
    simp [not_lt.2 hle]
  · intro hq
    rw [hd _ hq]
  · intro hq
    rw [hd _ hq]
  · intro hq
    rw [hd _ hq]
  · intro hq
    have hn : toNumber H c.delaySeconds = some .nan := by rw [hq]; rfl
    rw [hd _ hn]
  · intro hn
    rw [applyConfig_state_throws H w c hn]

/-- Witness for C15, amended: with tab 7 armed under a delay of 5 s, a stored
delay of 60 is installed as it is, and a negative or a missing delay gives
30. -/
theorem C15_delay_positive_witness :
    Reachable Example.host Example.armed ∧
    Example.armed.state.delaySeconds = .fin 5 ∧
    (applyConfig Example.host Example.armed
      (Example.config "idle" 60 false)).state.delaySeconds = .fin 60 ∧
    (applyConfig Example.host Example.armed
      (Example.config "idle" (-3) false)).state.delaySeconds = .fin 30 ∧
    (applyConfig Example.host Example.armed Example.malformed).state.delaySeconds
      = .fin 30 := by
  have hw : Reachable Example.host Example.armed := reachable_run _ _ _ Reachable.initial
  have h1 := (C15_delay_positive Example.host Example.armed hw
    (Example.config "idle" 60 false)).2.2.2.1 60 rfl (by norm_num)
  have h2 := (C15_delay_positive Example.host Example.armed hw
    (Example.config "idle" (-3) false)).2.2.2.2.1 (-3) rfl (by norm_num)
  exact ⟨hw, by decide!, h1, h2, by decide!⟩


/-! ## Partial storage changes (C19) -/

theorem fromRaw_mode_toJs (H : Host) (c : RawConfig) (m : Mode) (h : c.mode = m.toJs) :
    (fromRaw H c).mode = m := by
  cases m <;> simp [fromRaw, h, Mode.toJs, updateSettings, updatePatterns, isIdleString]

/-- C19: in a reachable world, a change of the "sync" area leaves every one of
mode, delay, close-on-click flag and compiled rules (with the raw patterns)
whose field the change set lacks as it was, and a change of another area
leaves the whole world as it was. -/
theorem C19_partial_change (H : Host) (w : World) (hw : Reachable H w) (changes : Changes)
    (area : String) :
    (changes.mode = none →
      (step H w (.storageChanged changes "sync")).state.mode = w.state.mode) ∧
    (changes.delaySeconds = none →
      (step H w (.storageChanged changes "sync")).state.delaySeconds
        = w.state.delaySeconds) ∧
    (changes.closeOnClick = none →
      (step H w (.storageChanged changes "sync")).state.closeOnClick
        = w.state.closeOnClick) ∧
    (changes.patterns = none →
      (step H w (.storageChanged changes "sync")).state.regexes = w.state.regexes ∧
      (step H w (.storageChanged changes "sync")).state.patterns = w.state.patterns) ∧
    (area ≠ "sync" → step H w (.storageChanged changes area) = w) := by
  have hs : step H w (.storageChanged changes "sync")
      = applyConfig H w (nextConfig w.state changes) := by
    simp [step, onStorageChanged]
  obtain ⟨hrx, q, hq, hd⟩ := reachable_normal H w hw
  obtain ⟨hp, hr, hm⟩ := applyConfig_rules H w (nextConfig w.state changes)
  refine ⟨?_, ?_, ?_, ?_, ?_⟩
  · intro h
    rw [hs, hm]
    exact fromRaw_mode_toJs H _ _ (by simp [nextConfig, h])
  · intro h
    have hn : toNumber H (nextConfig w.state changes).delaySeconds
        = some w.state.delaySeconds := by
      simp [nextConfig, h, toNumber]
    rw [hs, applyConfig_state H w _ _ hn, fromRaw_delay, hn, hd]
    simp [hq]
  · intro h
    rw [hs]
    cases hn : toNumber H (nextConfig w.state changes).delaySeconds with
    | none => rw [applyConfig_state_throws H w _ hn]
    | some parsed =>
      rw [applyConfig_state H w _ parsed hn]
      simp [fromRaw, nextConfig, h, toBoolean]
  · intro h
    rw [hs, hp, hr]
    simp [fromRaw, nextConfig, h, hrx]
  · intro h
    simp [step, onStorageChanged, h]

/-- Witness for C19: with tab 7 armed under the delay 5 s, a change of the mode
alone keeps delay, flag and rules, and a change in the "local" area keeps the
world. -/
theorem C19_partial_change_witness :
    Reachable Example.host Example.armed ∧
    (step Example.host Example.armed
      (.storageChanged (Example.modeChange "immediate") "sync")).state.delaySeconds
        = .fin 5 ∧
    (step Example.host Example.armed
      (.storageChanged (Example.modeChange "immediate") "sync")).state.regexes
        = [.str "example\\.com"] ∧
    (step Example.host Example.armed
      (.storageChanged (Example.modeChange "immediate") "sync")).state.mode
        = .immediate ∧
    step Example.host Example.armed
      (.storageChanged (Example.modeChange "immediate") "local") = Example.armed := by
  have hw : Reachable Example.host Example.armed := reachable_run _ _ _ Reachable.initial
  have h := C19_partial_change Example.host Example.armed hw
    (Example.modeChange "immediate") "local"
  exact ⟨hw, (h.2.1 rfl).trans (by decide!), ((h.2.2.2.1 rfl).1).trans rfl, by decide!,
    h.2.2.2.2 (by decide)⟩


/-! ## The manual scan (C11) -/

theorem handleTabResume_responses (H : Host) (w : World) (k : TabId) (tab : Option Tab) :
    (handleTabResume H w k tab).responses = w.responses := by
  cases tab with
  | none => rfl
  | some t =>
    simp only [handleTabResume]
    split
    · unfold clearTimer
      split <;> rfl
    · split
      · rfl
      · unfold scheduleIdleClose
        split <;> rfl

theorem runScanAllTabs_responses (H : Host) (tabs : List Tab) (w : World) :
    (runScanAllTabs H w tabs).responses = w.responses := by
  induction tabs generalizing w with
  | nil => rfl
  | cons t ts ih =>
    have h1 := handleTabResume_responses H w t.id (some t)
    have h3 := ih (handleTabResume H w t.id (some t))
    simp only [runScanAllTabs, List.foldl_cons, handleTab] at h3 ⊢
    exact h3.trans h1

theorem runScanAllTabs_eq_run (H : Host) (tabs : List Tab) (w : World) :
    runScanAllTabs H w tabs = run H w (tabs.map Event.tabCreated) := by
  induction tabs generalizing w with
  | nil => rfl
  | cons t ts ih =>
    have h := ih (handleTab H w t.id (some t))
    simp only [runScanAllTabs, run, List.foldl_cons, List.map_cons, step] at h ⊢
    exact h

theorem runScanAllTabs_append (H : Host) (xs ys : List Tab) (w : World) :
    runScanAllTabs H w (xs ++ ys) = runScanAllTabs H (runScanAllTabs H w xs) ys := by
  simp [runScanAllTabs, List.foldl_append]

/-- In immediate mode the scan requests the close of the tabs that
`shouldClose` accepts, in the order of the list. -/
theorem runScanAllTabs_closes_immediate (H : Host) (tabs : List Tab) (w : World)
    (hm : w.state.mode = .immediate) :
    (runScanAllTabs H w tabs).closes
      = w.closes ++ (tabs.filter (fun t => shouldClose H w.state (some t))).map (·.id) := by
  induction tabs generalizing w with
  | nil => simp [runScanAllTabs]
  | cons t ts ih =>
    have hst := (handleTabResume_state H w t.id (some t)).1
    have h := ih (handleTabResume H w t.id (some t)) (by rw [hst]; exact hm)
    simp only [runScanAllTabs, List.foldl_cons, handleTab] at h ⊢
    rw [h, hst]
    by_cases hc : shouldClose H w.state (some t) = true
    · simp [handleTabResume, hc, hm, closeTab]
    · have hc' : shouldClose H w.state (some t) = false := by simpa using hc
      simp [handleTabResume, hc', clearTimer_closes]

/-- C11: the scan that resumes with the queried tabs is the run of `handleTab`
on each tab in the order of the list, whatever happened on the tabs before,
and it ends with the response ok; in immediate mode it requests the close of
every tab of the list that `shouldClose` accepts.  A removal that fails is
reported to a callback that changes nothing. -/
theorem C11_manual_scan (H : Host) (w : World) (i : Nat) (tabs : List Tab)
    (hi : w.awaiting.get? i = some .scan) :
    (step H w (.message true)).awaiting = w.awaiting ++ [.scan] ∧
    step H w (.queryResolves i (some tabs))
      = { run H { w with awaiting := w.awaiting.eraseIdx i } (tabs.map Event.tabCreated) with
          responses := w.responses ++ [.ok] } ∧
    runScanAllTabs H w tabs = run H w (tabs.map Event.tabCreated) ∧
    (∀ (xs ys : List Tab) (t : Tab), tabs = xs ++ t :: ys →
      runScanAllTabs H w tabs
        = runScanAllTabs H (handleTab H (runScanAllTabs H w xs) t.id (some t)) ys) ∧
    (step H w (.queryResolves i (some tabs))).responses = w.responses ++ [.ok] ∧
    (step H w (.queryResolves i (some tabs))).state = w.state ∧
    (w.state.mode = .immediate →
      (step H w (.queryResolves i (some tabs))).closes
        = w.closes ++ (tabs.filter (fun t => shouldClose H w.state (some t))).map (·.id)) ∧
    (∀ err, closeTabCallback (step H w (.queryResolves i (some tabs))) err
      = step H w (.queryResolves i (some tabs))) := by
  have he : step H w (.queryResolves i (some tabs))
      = { runScanAllTabs H { w with awaiting := w.awaiting.eraseIdx i } tabs with
          responses := (runScanAllTabs H { w with awaiting := w.awaiting.eraseIdx i }
            tabs).responses ++ [.ok] } := by
    simp only [step, hi]
  refine ⟨rfl, ?_, runScanAllTabs_eq_run H tabs w, ?_, ?_, ?_, ?_, fun _ => rfl⟩
  · rw [he, runScanAllTabs_responses, ← runScanAllTabs_eq_run]
  · intro xs ys t ht
    subst ht
    rw [runScanAllTabs_append]
    rfl
  · rw [he]
    exact congrArg (· ++ [ScanResponse.ok]) (runScanAllTabs_responses H tabs _)
  · rw [he]
    exact runScanAllTabs_state H tabs _
  · intro hm
    rw [he]
    exact runScanAllTabs_closes_immediate H tabs
      { w with awaiting := w.awaiting.eraseIdx i } hm

/-- Witness for C11: in immediate mode a scan over three matching tabs requests
the close of tabs 1, 2 and 3 and answers ok, and the failure of the removal of
tab 2 changes nothing of it. -/
theorem C11_manual_scan_witness :
    Example.scanning.awaiting.get? 0 = some .scan ∧
    (step Example.host Example.scanning
      (.queryResolves 0 (some Example.openTabs))).closes = [1, 2, 3] ∧
    (step Example.host Example.scanning
      (.queryResolves 0 (some Example.openTabs))).responses = [.ok] ∧
    closeTabCallback
      (step Example.host Example.scanning (.queryResolves 0 (some Example.openTabs)))
      (some "No tab with id: 2.")
      = step Example.host Example.scanning (.queryResolves 0 (some Example.openTabs)) := by
  have h := C11_manual_scan Example.host Example.scanning 0 Example.openTabs rfl
  exact ⟨rfl, (h.2.2.2.2.2.2.1 rfl).trans (by decide), h.2.2.2.2.1.trans rfl,
    h.2.2.2.2.2.2.2 _⟩


/-! ## Every close request is for an eligible snapshot (C17) -/

theorem shouldClose_iff (H : Host) (st : State) (tab : Option Tab) :
    shouldClose H st tab = true ↔
      ∃ t, tab = some t ∧ t.pinned = false ∧
        (startsWith (t.url.getD "") "http://" = true
          ∨ startsWith (t.url.getD "") "https://" = true) ∧
        ∃ rx ∈ st.regexes, H.test rx (t.url.getD "") = true := by
  cases tab with
  | none => simp [shouldClose]
  | some t =>
    cases hp : t.pinned <;>
    cases h1 : startsWith (t.url.getD "") "http://" <;>
    cases h2 : startsWith (t.url.getD "") "https://" <;>
    simp [shouldClose, hp, h1, h2]

theorem handleTabResume_closes (H : Host) (w : World) (k : TabId) (tab : Option Tab) :
    (handleTabResume H w k tab).closes = w.closes ∨
    (shouldClose H w.state tab = true ∧ (handleTabResume H w k tab).closes = w.closes ++ [k])
    := by
  cases tab with
  | none => exact Or.inl rfl
  | some t =>
    by_cases hc : shouldClose H w.state (some t) = true
    · by_cases hm : w.state.mode = .immediate
      · right
        simp [handleTabResume, hc, hm, closeTab]
      · left
        simp [handleTabResume, hc, hm, (scheduleIdleClose_frame w k).1]
    · left
      have hc' : shouldClose H w.state (some t) = false := by simpa using hc
      simp [handleTabResume, hc', clearTimer_closes]

theorem tickResume_closes (H : Host) (w : World) (k : TabId) (d : JsNum)
    (latest : Option Tab) :
    (tickResume H w k d latest).closes = w.closes ∨
    (shouldClose H w.state latest = true ∧ (tickResume H w k d latest).closes = w.closes ++ [k])
    := by
  cases latest with
  | none => exact Or.inl rfl
  | some t =>
    by_cases hc : shouldClose H w.state (some t) = true
    · by_cases ha : t.active = true
      · left
        simp [tickResume, hc, ha, setTimeout]
      · right
        simp [tickResume, hc, ha, closeTab]
    · left
      have hc' : shouldClose H w.state (some t) = false := by simpa using hc
      simp [tickResume, hc']

theorem activatedResume_closes (H : Host) (w : World) (k : TabId) (tab : Option Tab) :
    (activatedResume H w k tab).closes = w.closes ∨
    (shouldClose H w.state tab = true ∧ (activatedResume H w k tab).closes = w.closes ++ [k])
    := by
  by_cases hc : shouldClose H w.state tab = true
  · right
    simp [activatedResume, hc, closeTab, clearTimer_closes]
  · left
    have hc' : shouldClose H w.state tab = false := by simpa using hc
    simp [activatedResume, hc']

theorem runScanAllTabs_closes (H : Host) (tabs : List Tab) (w : World) :
    ∃ added : List TabId, (runScanAllTabs H w tabs).closes = w.closes ++ added ∧
      ∀ k ∈ added, ∃ t ∈ tabs, t.id = k ∧ shouldClose H w.state (some t) = true := by
  induction tabs generalizing w with
  | nil => exact ⟨[], by simp [runScanAllTabs], by simp⟩
  | cons t ts ih =>
    have hst := (handleTabResume_state H w t.id (some t)).1
    obtain ⟨added, h1, h2⟩ := ih (handleTabResume H w t.id (some t))
    rw [hst] at h2
    simp only [runScanAllTabs, List.foldl_cons, handleTab] at h1 ⊢
    rcases handleTabResume_closes H w t.id (some t) with h | ⟨hc, h⟩
    · refine ⟨added, by rw [h1, h], ?_⟩
      intro k hk
      obtain ⟨t', ht', hid, hc'⟩ := h2 k hk
      exact ⟨t', List.mem_cons_of_mem _ ht', hid, hc'⟩
    · refine ⟨t.id :: added, by rw [h1, h]; simp, ?_⟩
      intro k hk
      rcases List.mem_cons.1 hk with rfl | hk
      · exact ⟨t, List.mem_cons_self _ _, rfl, hc⟩
      · obtain ⟨t', ht', hid, hc'⟩ := h2 k hk
        exact ⟨t', List.mem_cons_of_mem _ ht', hid, hc'⟩

/-- C17: a step only appends to the close requests, and every tab id it appends
comes with a snapshot, evaluated by the handler of that step, that
`shouldClose` accepts under the current configuration: the snapshot is
present, not pinned, has a URL that starts with http:// or https://, and
matches one of the compiled rules. -/
theorem C17_closes_only_eligible (H : Host) (w : World) (e : Event) :
    (∃ added : List TabId, (step H w e).closes = w.closes ++ added ∧
      ∀ k ∈ added, ∃ t, (k, t) ∈ snapshots w e ∧ shouldClose H w.state (some t) = true ∧
        t.pinned = false ∧
        (∃ url, t.url = some url ∧
          (startsWith url "http://" = true ∨ startsWith url "https://" = true) ∧
          ∃ rx ∈ w.state.regexes, H.test rx url = true)) ∧
    (∀ k tab, (handleTabResume H w k tab).closes = w.closes ∨
      (shouldClose H w.state tab = true ∧
        (handleTabResume H w k tab).closes = w.closes ++ [k])) ∧
    (∀ k d latest, (tickResume H w k d latest).closes = w.closes ∨
      (shouldClose H w.state latest = true ∧
        (tickResume H w k d latest).closes = w.closes ++ [k])) ∧
    (∀ k tab, (activatedResume H w k tab).closes = w.closes ∨
      (shouldClose H w.state tab = true ∧
        (activatedResume H w k tab).closes = w.closes ++ [k])) := by
  refine ⟨?_, handleTabResume_closes H w, tickResume_closes H w, activatedResume_closes H w⟩
  have key : ∃ added : List TabId, (step H w e).closes = w.closes ++ added ∧
      ∀ k ∈ added, ∃ t, (k, t) ∈ snapshots w e ∧ shouldClose H w.state (some t) = true := by
    have none : ∀ w' : World, w'.closes = w.closes →
        ∃ added : List TabId, w'.closes = w.closes ++ added ∧
          ∀ k ∈ added, ∃ t, (k, t) ∈ snapshots w e ∧ shouldClose H w.state (some t) = true :=
      fun w' h => ⟨[], by simp [h], by simp⟩
    have one : ∀ (w' : World) (k : TabId) (tab : Option Tab),
        (∀ t, tab = some t → (k, t) ∈ snapshots w e) →
        (w'.closes = w.closes ∨ (shouldClose H w.state tab = true ∧
          w'.closes = w.closes ++ [k])) →
        ∃ added : List TabId, w'.closes = w.closes ++ added ∧
          ∀ k ∈ added, ∃ t, (k, t) ∈ snapshots w e ∧ shouldClose H w.state (some t) = true := by
      intro w' k tab hs h
      rcases h with h | ⟨hc, h⟩
      · exact none w' h
      · cases tab with
        | none => simp [shouldClose] at hc
        | some t =>
          refine ⟨[k], h, ?_⟩
          intro k' hk'
          rw [List.mem_singleton.1 hk']
          exact ⟨t, hs t rfl, hc⟩
    cases e with
    | configLoaded c => exact none _ rfl
    | storageChanged changes area =>
      apply none
      simp only [step, onStorageChanged]
      split <;> rfl
    | tabCreated tab =>
      exact one _ tab.id (some tab) (fun t ht => by cases ht; simp [snapshots])
        (handleTabResume_closes H w tab.id (some tab))
    | tabUpdated tabId ci tab =>
      by_cases hg : ((ci.url.getD "" == "") && (ci.status != some "complete")) = true
      · apply none
        simp only [step, onUpdated, hg, if_true]
      · cases tab with
        | none =>
          apply none
          simp only [step, onUpdated, hg]
          rfl
        | some t =>
          have hst : step H w (.tabUpdated tabId ci (some t))
              = handleTabResume H w tabId (some t) := by
            simp only [step, onUpdated, hg]
            rfl
          rw [hst]
          exact one _ tabId (some t) (fun t' ht => by cases ht; simp [snapshots])
            (handleTabResume_closes H w tabId (some t))
    | tabRemoved tabId => exact none _ (clearTimer_closes _ _)
    | tabActivated tabId =>
      apply none
      simp only [step, onActivated]
      split <;> rfl
    | message runScan =>
      apply none
      cases runScan <;> rfl
    | timerFires h =>
      apply none
      simp only [step]
      split <;> rfl
    | lookupResolves i r =>
      cases hk : w.awaiting.get? i with
      | none => exact none _ (by simp only [step, hk])
      | some c =>
        cases c with
        | tick tabId d =>
          have hst : step H w (.lookupResolves i r)
              = tickResume H { w with awaiting := w.awaiting.eraseIdx i } tabId d r := by
            simp only [step, hk]
          rw [hst]
          exact one _ tabId r (fun t ht => by subst ht; simp only [snapshots, hk]; simp)
            (tickResume_closes H _ tabId d r)
        | handleTab tabId =>
          have hst : step H w (.lookupResolves i r)
              = handleTabResume H { w with awaiting := w.awaiting.eraseIdx i } tabId r := by
            simp only [step, hk]
          rw [hst]
          exact one _ tabId r (fun t ht => by subst ht; simp only [snapshots, hk]; simp)
            (handleTabResume_closes H _ tabId r)
        | activated tabId =>
          have hst : step H w (.lookupResolves i r)
              = activatedResume H { w with awaiting := w.awaiting.eraseIdx i } tabId r := by
            simp only [step, hk]
          rw [hst]
          exact one _ tabId r (fun t ht => by subst ht; simp only [snapshots, hk]; simp)
            (activatedResume_closes H _ tabId r)
        | scan => exact none _ (by simp only [step, hk])
    | queryResolves i r =>
      cases hk : w.awaiting.get? i with
      | none => exact none _ (by simp only [step, hk])
      | some c =>
        cases c with
        | scan =>
          cases r with
          | none => exact none _ (by simp only [step, hk])
          | some tabs =>
            obtain ⟨added, h1, h2⟩ :=
              runScanAllTabs_closes H tabs { w with awaiting := w.awaiting.eraseIdx i }
            refine ⟨added, by simp only [step, hk]; exact h1, ?_⟩
            intro k hk'
            obtain ⟨t, ht, hid, hc⟩ := h2 k hk'
            refine ⟨t, ?_, hc⟩
            simp only [snapshots, List.mem_map]
            exact ⟨t, ht, by rw [hid]⟩
        | tick tabId d => exact none _ (by simp only [step, hk])
        | handleTab tabId => exact none _ (by simp only [step, hk])
        | activated tabId => exact none _ (by simp only [step, hk])
  obtain ⟨added, h1, h2⟩ := key
  refine ⟨added, h1, ?_⟩
  intro k hk
  obtain ⟨t, hs, hc⟩ := h2 k hk
  obtain ⟨t', ht', hp, hu, rx, hrx, htest⟩ := (shouldClose_iff H w.state (some t)).1 hc
  cases ht'
  refine ⟨t, hs, hc, hp, ?_⟩
  cases hurl : t.url with
  | none =>
    rw [hurl] at hu
    rcases hu with hu | hu <;> simp [startsWith] at hu
  | some url =>
    rw [hurl] at hu htest
    exact ⟨url, rfl, hu, rx, hrx, htest⟩


/-! ## The registry in immediate mode (C18) -/

theorem clearTimer_of_empty (w : World) (k : TabId) (ht : w.timers = []) :
    clearTimer w k = w := by
  simp [clearTimer, ht, Timers.get]

theorem handleTabResume_timers_immediate (H : Host) (w : World) (k : TabId)
    (tab : Option Tab) (hm : w.state.mode = .immediate) (ht : w.timers = []) :
    (handleTabResume H w k tab).timers = [] := by
  cases tab with
  | none => exact ht
  | some t =>
    simp only [handleTabResume, hm, if_true]
    split
    · rw [clearTimer_of_empty w k ht]
      exact ht
    · exact ht

theorem runScanAllTabs_timers_immediate (H : Host) (tabs : List Tab) (w : World)
    (hm : w.state.mode = .immediate) (ht : w.timers = []) :
    (runScanAllTabs H w tabs).timers = [] := by
  induction tabs generalizing w with
  | nil => exact ht
  | cons t ts ih =>
    have hst := (handleTabResume_state H w t.id (some t)).1
    have h := ih (handleTabResume H w t.id (some t)) (by rw [hst]; exact hm)
      (handleTabResume_timers_immediate H w t.id (some t) hm ht)
    simp only [runScanAllTabs, List.foldl_cons, handleTab] at h ⊢
    exact h

theorem step_timers_immediate (H : Host) (w : World) (e : Event)
    (hm : w.state.mode = .immediate) (ht : w.timers = [])
    (he : ∀ i r tabId d, e = .lookupResolves i r →
      w.awaiting.get? i ≠ some (.tick tabId d)) :
    (step H w e).timers = [] := by
  cases e with
  | configLoaded c => rfl
  | storageChanged changes area =>
    simp only [step, onStorageChanged]
    split
    · exact ht
    · rfl
  | tabCreated tab => exact handleTabResume_timers_immediate H w tab.id (some tab) hm ht
  | tabUpdated tabId ci tab =>
    simp only [step, onUpdated]
    split
    · exact ht
    · cases tab with
      | none => exact ht
      | some t => exact handleTabResume_timers_immediate H w tabId (some t) hm ht
  | tabRemoved tabId =>
    simp only [step]
    rw [clearTimer_of_empty w tabId ht]
    exact ht
  | tabActivated tabId =>
    simp only [step, onActivated]
    split <;> exact ht
  | message runScan => cases runScan <;> exact ht
  | timerFires h =>
    simp only [step]
    split <;> exact ht
  | lookupResolves i r =>
    cases hk : w.awaiting.get? i with
    | none =>
      simp only [step, hk]
      exact ht
    | some k =>
      cases k with
      | tick tabId d => exact absurd hk (he i r tabId d rfl)
      | handleTab tabId =>
        simp only [step, hk]
        exact handleTabResume_timers_immediate H _ tabId r hm ht
      | activated tabId =>
        simp only [step, hk, activatedResume]
        split
        · rw [clearTimer_of_empty { w with awaiting := w.awaiting.eraseIdx i } tabId ht]
          exact ht
        · exact ht
      | scan =>
        simp only [step, hk]
        exact ht
  | queryResolves i r =>
    cases hk : w.awaiting.get? i with
    | none =>
      simp only [step, hk]
      exact ht
    | some k =>
      cases k with
      | scan =>
        cases r with
        | none =>
          simp only [step, hk]
          exact ht
        | some tabs =>
          simp only [step, hk]
          exact runScanAllTabs_timers_immediate H tabs _ hm ht
      | tick tabId d =>
        simp only [step, hk]
        exact ht
      | handleTab tabId =>
        simp only [step, hk]
        exact ht
      | activated tabId =>
        simp only [step, hk]
        exact ht

theorem tickResume_timers_of_empty (H : Host) (w : World) (tabId : TabId) (d : JsNum)
    (latest : Option Tab) (ht : w.timers = []) :
    (tickResume H w tabId d latest).timers
      = if shouldClose H w.state latest = true ∧ (∃ t, latest = some t ∧ t.active = true)
        then [(tabId, w.nextHandle)] else [] := by
  cases latest with
  | none => simp [tickResume, shouldClose, ht, Timers.delete]
  | some t =>
    by_cases hc : shouldClose H w.state (some t) = true
    · by_cases ha : t.active = true
      · simp [tickResume, hc, ha, setTimeout, ht, Timers.set]
      · simp [tickResume, hc, ha, closeTab, ht, Timers.delete]
    · have hc' : shouldClose H w.state (some t) = false := by simpa using hc
      simp [tickResume, hc', ht, Timers.delete]


theorem handleTabResume_immediate (H : Host) (w : World) (k : TabId) (tab : Option Tab)
    (hm : w.state.mode = .immediate) (ht : w.timers = []) :
    handleTabResume H w k tab = w ∨ handleTabResume H w k tab = closeTab w k := by
  cases tab with
  | none => exact Or.inl rfl
  | some t =>
    simp only [handleTabResume, hm, if_true]
    split
    · exact Or.inl (clearTimer_of_empty w k ht)
    · exact Or.inr rfl

theorem handleTabResume_pending_immediate (H : Host) (w : World) (k : TabId)
    (tab : Option Tab) (hm : w.state.mode = .immediate) (ht : w.timers = []) :
    (handleTabResume H w k tab).pending = w.pending := by
  rcases handleTabResume_immediate H w k tab hm ht with h | h
  · rw [h]
  · rw [h]
    rfl

theorem runScanAllTabs_pending_immediate (H : Host) (tabs : List Tab) (w : World)
    (hm : w.state.mode = .immediate) (ht : w.timers = []) :
    (runScanAllTabs H w tabs).pending = w.pending := by
  induction tabs generalizing w with
  | nil => rfl
  | cons t ts ih =>
    have hst := (handleTabResume_state H w t.id (some t)).1
    have h := ih (handleTabResume H w t.id (some t)) (by rw [hst]; exact hm)
      (handleTabResume_timers_immediate H w t.id (some t) hm ht)
    simp only [runScanAllTabs, List.foldl_cons, handleTab] at h ⊢
    exact h.trans (handleTabResume_pending_immediate H w t.id (some t) hm ht)

/-- In immediate mode every step keeps a world without idle timers at work as it
is in that respect. -/
theorem step_quiet (H : Host) (w : World) (e : Event) (hm : w.state.mode = .immediate)
    (hq : Quiet w) : Quiet (step H w e) := by
  obtain ⟨ht, hp, ha⟩ := hq
  have he : ∀ i r tabId d, e = .lookupResolves i r →
      w.awaiting.get? i ≠ some (.tick tabId d) := by
    intro i r tabId d _ hk
    exact ha tabId d (List.get?_mem hk)
  refine ⟨step_timers_immediate H w e hm ht he, ?_, ?_⟩
  · cases e with
    | configLoaded c => simp [step, applyConfig, clearAllTimers, ht, hp]
    | storageChanged changes area =>
      simp only [step, onStorageChanged]
      split
      · exact hp
      · simp [applyConfig, clearAllTimers, ht, hp]
    | tabCreated tab =>
      exact (handleTabResume_pending_immediate H w tab.id (some tab) hm ht).trans hp
    | tabUpdated tabId ci tab =>
      simp only [step, onUpdated]
      split
      · exact hp
      · cases tab with
        | none => exact hp
        | some t => exact (handleTabResume_pending_immediate H w tabId (some t) hm ht).trans hp
    | tabRemoved tabId =>
      simp only [step]
      rw [clearTimer_of_empty w tabId ht]
      exact hp
    | tabActivated tabId =>
      simp only [step, onActivated]
      split <;> exact hp
    | message runScan => cases runScan <;> exact hp
    | timerFires h =>
      simp only [step, hp, List.find?_nil]
    | lookupResolves i r =>
      cases hk : w.awaiting.get? i with
      | none =>
        simp only [step, hk]
        exact hp
      | some k =>
        cases k with
        | tick tabId d => exact absurd hk (he i r tabId d rfl)
        | handleTab tabId =>
          simp only [step, hk]
          exact (handleTabResume_pending_immediate H
            { w with awaiting := w.awaiting.eraseIdx i } tabId r hm ht).trans hp
        | activated tabId =>
          simp only [step, hk, activatedResume]
          split
          · rw [clearTimer_of_empty { w with awaiting := w.awaiting.eraseIdx i } tabId ht]
            exact hp
          · exact hp
        | scan =>
          simp only [step, hk]
          exact hp
    | queryResolves i r =>
      cases hk : w.awaiting.get? i with
      | none =>
        simp only [step, hk]
        exact hp
      | some k =>
        cases k with
        | scan =>
          cases r with
          | none =>
            simp only [step, hk]
            exact hp
          | some tabs =>
            simp only [step, hk]
            exact (runScanAllTabs_pending_immediate H tabs
              { w with awaiting := w.awaiting.eraseIdx i } hm ht).trans hp
        | tick tabId d =>
          simp only [step, hk]
          exact hp
        | handleTab tabId =>
          simp only [step, hk]
          exact hp
        | activated tabId =>
          simp only [step, hk]
          exact hp
  · have hers : ∀ i tabId d, Cont.tick tabId d ∉ w.awaiting.eraseIdx i :=
      fun i tabId d hmem => ha tabId d (List.mem_of_mem_eraseIdx hmem)
    intro tabId d
    cases e with
    | configLoaded c => exact ha tabId d
    | storageChanged changes area =>
      simp only [step, onStorageChanged]
      split
      · exact ha tabId d
      · exact ha tabId d
    | tabCreated tab =>
      have h := (handleTabResume_state H w tab.id (some tab)).2
      simp only [step, handleTab]
      rw [h]
      exact ha tabId d
    | tabUpdated k ci tab =>
      simp only [step, onUpdated]
      split
      · exact ha tabId d
      · cases tab with
        | none =>
          simp only [handleTab, List.mem_append, List.mem_singleton, not_or]
          exact ⟨ha tabId d, by simp⟩
        | some t =>
          have h := (handleTabResume_state H w k (some t)).2
          simp only [handleTab]
          rw [h]
          exact ha tabId d
    | tabRemoved k =>
      simp only [step]
      rw [clearTimer_of_empty w k ht]
      exact ha tabId d
    | tabActivated k =>
      simp only [step, onActivated]
      split
      · exact ha tabId d
      · simp only [List.mem_append, List.mem_singleton, not_or]
        exact ⟨ha tabId d, by simp⟩
    | message runScan =>
      cases runScan
      · exact ha tabId d
      · simp only [step, if_true, List.mem_append, List.mem_singleton, not_or]
        exact ⟨ha tabId d, by simp⟩
    | timerFires h =>
      simp only [step, hp, List.find?_nil]
      exact ha tabId d
    | lookupResolves i r =>
      cases hk : w.awaiting.get? i with
      | none =>
        simp only [step, hk]
        exact ha tabId d
      | some k =>
        cases k with
        | tick k' d' => exact absurd hk (he i r k' d' rfl)
        | handleTab k' =>
          simp only [step, hk]
          rw [(handleTabResume_state H _ k' r).2]
          exact hers i tabId d
        | activated k' =>
          simp only [step, hk, activatedResume]
          split
          · rw [clearTimer_of_empty { w with awaiting := w.awaiting.eraseIdx i } k' ht]
            exact hers i tabId d
          · exact hers i tabId d
        | scan =>
          simp only [step, hk]
          exact ha tabId d
    | queryResolves i r =>
      cases hk : w.awaiting.get? i with
      | none =>
        simp only [step, hk]
        exact ha tabId d
      | some k =>
        cases k with
        | scan =>
          cases r with
          | none =>
            simp only [step, hk]
            exact hers i tabId d
          | some tabs =>
            simp only [step, hk]
            rw [runScanAllTabs_awaiting]
            exact hers i tabId d
        | tick k' d' =>
          simp only [step, hk]
          exact ha tabId d
        | handleTab k' =>
          simp only [step, hk]
          exact ha tabId d
        | activated k' =>
          simp only [step, hk]
          exact ha tabId d

/-- Along a run that stays in immediate mode, a world without idle timers at
work stays so. -/
theorem run_quiet (H : Host) (events : List Event) (w : World) (hq : Quiet w)
    (hm : ∀ es, es <+: events → (run H w es).state.mode = .immediate) :
    Quiet (run H w events) := by
  induction events using List.reverseRecOn with
  | nil => exact hq
  | append_singleton es e ih =>
    have hes : Quiet (run H w es) :=
      ih (fun es' h => hm es' (h.trans (List.prefix_append es [e])))
    have hmode := hm es (List.prefix_append es [e])
    have hrun : run H w (es ++ [e]) = step H (run H w es) e := by
      simp [run, List.foldl_append]
    rw [hrun]
    exact step_quiet H _ e hmode hes

/-- Counterexample to C18: the world in which the callback of tab 7 was
suspended at its lookup, the mode was switched to immediate, and the callback
resumed on the active tab, is reachable and in immediate mode, and its
registry holds a timer for tab 7.  The same happens when the callback starts
after the switch, from a timeout that was pending without an entry in the
registry. -/
theorem C18_immediate_mode_with_timer :
    Reachable Example.host Example.rearmed ∧
    Example.rearmed.state.mode = .immediate ∧
    Example.rearmed.timers = [(7, 1)] ∧
    Example.rearmed.timers.has 7 = true ∧
    Reachable Example.host Example.leaked ∧
    (run Example.host Example.leaked
      [.storageChanged (Example.modeChange "immediate") "sync"]).timers = [] ∧
    (run Example.host Example.leaked
      [.storageChanged (Example.modeChange "immediate") "sync", .timerFires 1,
       .lookupResolves 0 (some (Example.page true false))]).state.mode = .immediate ∧
    (run Example.host Example.leaked
      [.storageChanged (Example.modeChange "immediate") "sync", .timerFires 1,
       .lookupResolves 0 (some (Example.page true false))]).timers = [(7, 3)] :=
  ⟨reachable_run _ _ _ (Reachable.step _ _ (reachable_run _ _ _ Reachable.initial)),
    by decide!, by decide!, by decide!,
    reachable_run _ _ _ (Reachable.step _ _ (reachable_run _ _ _ Reachable.initial)),
    by decide!, by decide!, by decide!⟩

/-- C18, amended: `applyConfig` leaves the registry empty, and in immediate mode
a step from an empty registry leaves it empty unless the step resumes an idle
callback at its lookup; such a callback arms a timer exactly when its tab still
matches and is active, whenever the callback started.  When moreover no
timeout is pending and no idle callback is suspended, every step keeps all
three so, and the registry is empty along every run that stays in immediate
mode. -/
theorem C18_registry_in_immediate_mode (H : Host) (w : World) (e : Event) (c : RawConfig)
    (hm : w.state.mode = .immediate) (ht : w.timers = []) :
    (∀ v : World, (applyConfig H v c).timers = []) ∧
    ((∀ i r tabId d, e = .lookupResolves i r → w.awaiting.get? i ≠ some (.tick tabId d)) →
      (step H w e).timers = []) ∧
    (∀ tabId d latest, (tickResume H w tabId d latest).timers
      = if shouldClose H w.state latest = true ∧ (∃ t, latest = some t ∧ t.active = true)
        then [(tabId, w.nextHandle)] else []) ∧
    (∀ i tabId d latest, w.awaiting.get? i = some (.tick tabId d) →
      (step H w (.lookupResolves i latest)).timers
        = if shouldClose H w.state latest = true ∧ (∃ t, latest = some t ∧ t.active = true)
          then [(tabId, w.nextHandle)] else []) ∧
    (∀ i tabId d t, w.awaiting.get? i = some (.tick tabId d) →
      shouldClose H w.state (some t) = true → t.active = true →
      (step H w (.lookupResolves i (some t))).pending
        = w.pending ++ [{ handle := w.nextHandle, tabId := tabId, delayMs := d }]) ∧
    (Quiet w → Quiet (step H w e)) ∧
    (Quiet w → ∀ events : List Event,
      (∀ es, es <+: events → (run H w es).state.mode = .immediate) →
      (run H w events).timers = []) ∧
    Quiet World.initial ∧ World.initial.state.mode = .immediate := by
  refine ⟨fun _ => rfl, step_timers_immediate H w e hm ht,
    fun tabId d latest => tickResume_timers_of_empty H w tabId d latest ht, ?_, ?_,
    step_quiet H w e hm, fun hq events hes => (run_quiet H events w hq hes).1,
    ⟨rfl, rfl, fun _ _ h => by cases h⟩, rfl⟩
  · intro i tabId d latest hk
    have hs : step H w (.lookupResolves i latest)
        = tickResume H { w with awaiting := w.awaiting.eraseIdx i } tabId d latest := by
      simp only [step, hk]
    rw [hs]
    exact tickResume_timers_of_empty H _ tabId d latest ht
  · intro i tabId d t hk hc ha
    have hs : step H w (.lookupResolves i (some t))
        = tickResume H { w with awaiting := w.awaiting.eraseIdx i } tabId d (some t) := by
      simp only [step, hk]
    rw [hs]
    simp [tickResume, hc, ha, setTimeout]

/-- Witness for C18, amended: after tab 7 was armed and the mode was switched to
immediate, the registry is empty and stays empty when tab 7 finishes a load. -/
theorem C18_registry_in_immediate_mode_witness :
    (step Example.host Example.armed
      (.storageChanged (Example.modeChange "immediate") "sync")).state.mode = .immediate ∧
    (step Example.host Example.armed
      (.storageChanged (Example.modeChange "immediate") "sync")).timers = [] ∧
    (step Example.host
      (step Example.host Example.armed
        (.storageChanged (Example.modeChange "immediate") "sync"))
      (.tabUpdated 7 Example.complete (some (Example.page false false)))).timers = [] :=
  ⟨by decide!, rfl,
    (C18_registry_in_immediate_mode Example.host
      (step Example.host Example.armed
        (.storageChanged (Example.modeChange "immediate") "sync"))
      (.tabUpdated 7 Example.complete (some (Example.page false false)))
      (Example.config "idle" 5 false) (by decide!) rfl).2.1
      (fun _ _ _ _ h => by cases h)⟩


/-! ## The delay that the settings page writes (C16) -/

/-- Counterexample to C16: with the mode immediate and the delay text "-5",
`save` writes the delay -5. -/
theorem C16_negative_delay_saved :
    Options.save Example.numericHost Example.message (Example.form "immediate" "-5")
      = some { patterns := ["example\\.com"], mode := "immediate", delaySeconds := .fin (-5),
               closeOnClick := false } := by
  decide!

/-- C16, amended: what `save` writes has the selected mode and the delay
`Number(text) || 30`, where `Number` of the text is the string conversion of
the host; the delay is neither NaN nor zero, and when the selected mode is
idle it is a finite, strictly positive number. -/
theorem C16_saved_delay (H : Host) (message : String → String) (form : Options.Form)
    (s : Options.Saved) (hs : Options.save H message form = some s) :
    s.mode = Options.selectedMode form ∧
    toNumber H (.str form.delay) = some (H.stringToNumber (.str form.delay)) ∧
    s.delaySeconds
      = (if toBoolean (.num (H.stringToNumber (.str form.delay))) = true
          then H.stringToNumber (.str form.delay) else .fin 30) ∧
    s.delaySeconds ≠ .nan ∧ s.delaySeconds ≠ .fin 0 ∧
    (s.mode = "idle" → ∃ q : ℚ, 0 < q ∧ s.delaySeconds = .fin q) := by
  have hs' : (if ((Options.validateInput H message form).invalid.length != 0) = true
      then none
      else if (Options.selectedMode form == "idle" &&
          (!(if toBoolean (.num (H.stringToNumber (.str form.delay))) = true
              then H.stringToNumber (.str form.delay) else Options.DEFAULT_DELAY).isFinite ||
            (if toBoolean (.num (H.stringToNumber (.str form.delay))) = true
              then H.stringToNumber (.str form.delay) else Options.DEFAULT_DELAY).leZero)) = true
        then none
        else some
          { patterns := (Options.validateInput H message form).valid
            mode := Options.selectedMode form
            delaySeconds := (if toBoolean (.num (H.stringToNumber (.str form.delay))) = true
              then H.stringToNumber (.str form.delay) else Options.DEFAULT_DELAY)
            closeOnClick := form.closeOnClick }) = some s := hs
  by_cases h1 : ((Options.validateInput H message form).invalid.length != 0) = true
  · rw [if_pos h1] at hs'
    cases hs'
  rw [if_neg h1] at hs'
  by_cases hg : (Options.selectedMode form == "idle" &&
      (!(if toBoolean (.num (H.stringToNumber (.str form.delay))) = true
          then H.stringToNumber (.str form.delay) else Options.DEFAULT_DELAY).isFinite ||
        (if toBoolean (.num (H.stringToNumber (.str form.delay))) = true
          then H.stringToNumber (.str form.delay) else Options.DEFAULT_DELAY).leZero)) = true
  · rw [if_pos hg] at hs'
    cases hs'
  rw [if_neg hg] at hs'
  cases hs'
  refine ⟨rfl, rfl, rfl, ?_, ?_, ?_⟩
  · simp only [Options.DEFAULT_DELAY]
    split
    · rename_i ht
      intro hn
      rw [hn] at ht
      simp [toBoolean] at ht
    · simp
  · simp only [Options.DEFAULT_DELAY]
    split
    · rename_i ht
      intro hn
      rw [hn] at ht
      simp [toBoolean] at ht
    · simp
  · intro hm
    simp only at hm
    generalize (if toBoolean (.num (H.stringToNumber (.str form.delay))) = true
      then H.stringToNumber (.str form.delay) else Options.DEFAULT_DELAY) = d at hg ⊢
    rw [hm] at hg
    cases d with
    | fin q =>
      refine ⟨q, ?_, rfl⟩
      simpa [JsNum.leZero, JsNum.isFinite] using hg
    | nan => simp [JsNum.isFinite] at hg
    | posInf => simp [JsNum.isFinite] at hg
    | negInf => simp [JsNum.isFinite] at hg

/-- Witness for C16, amended: with the mode idle and the delay text "45", `save`
writes the delay 45. -/
theorem C16_saved_delay_witness :
    Options.save Example.numericHost Example.message (Example.form "idle" "45")
      = some { patterns := ["example\\.com"], mode := "idle", delaySeconds := .fin 45,
               closeOnClick := false } ∧
    ∃ q : ℚ, 0 < q ∧ JsNum.fin 45 = .fin q :=
  ⟨by decide!,
    (C16_saved_delay Example.numericHost Example.message (Example.form "idle" "45")
      { patterns := ["example\\.com"], mode := "idle", delaySeconds := .fin 45,
        closeOnClick := false } (by decide!)).2.2.2.2.2 rfl⟩


/-! ## Validation of the pattern lines (C20) -/

namespace Options

theorem validateFrom_valid (H : Host) (message : String → String) (lines : List String)
    (acc : Validation) (idx : Nat) :
    (validateFrom H message acc idx lines).valid
      = acc.valid ++ (lines.map trim).filter (fun t => t != "" && H.compiles (.str t)) := by
  induction lines generalizing acc idx with
  | nil => simp [validateFrom]
  | cons l ls ih =>
    rw [validateFrom, ih]
    by_cases hb : trim l = ""
    · simp [validateLine, hb]
    · by_cases hc : H.compiles (.str (trim l)) = true
      · simp [validateLine, hb, hc]
      · have hc' : H.compiles (.str (trim l)) = false := by simpa using hc
        simp [validateLine, hb, hc']

theorem validateFrom_invalid (H : Host) (message : String → String) (lines : List String)
    (acc : Validation) (idx : Nat) :
    (validateFrom H message acc idx lines).invalid
      = acc.invalid ++
        ((lines.enumFrom idx).filter
          (fun p => trim p.2 != "" && !H.compiles (.str (trim p.2)))).map
          (fun p => "Line " ++ toString (p.1 + 1) ++ ": " ++ trim p.2 ++ "\n  "
            ++ message (trim p.2)) := by
  induction lines generalizing acc idx with
  | nil => simp [validateFrom]
  | cons l ls ih =>
    rw [validateFrom, ih]
    by_cases hb : trim l = ""
    · simp [validateLine, hb, List.enumFrom]
    · by_cases hc : H.compiles (.str (trim l)) = true
      · simp [validateLine, hb, hc, List.enumFrom]
      · have hc' : H.compiles (.str (trim l)) = false := by simpa using hc
        simp [validateLine, hb, hc', List.enumFrom]

theorem validateFrom_length (H : Host) (message : String → String) (lines : List String)
    (acc : Validation) (idx : Nat) :
    (validateFrom H message acc idx lines).valid.length
      + (validateFrom H message acc idx lines).invalid.length
      = acc.valid.length + acc.invalid.length
        + (lines.filter (fun l => trim l != "")).length := by
  induction lines generalizing acc idx with
  | nil => simp [validateFrom]
  | cons l ls ih =>
    rw [validateFrom, ih]
    by_cases hb : trim l = ""
    · simp [validateLine, hb]
    · by_cases hc : H.compiles (.str (trim l)) = true
      · simp [validateLine, hb, hc]
        omega
      · have hc' : H.compiles (.str (trim l)) = false := by simpa using hc
        simp [validateLine, hb, hc']
        omega

theorem startsWith_line (k : Nat) (rest : String) :
    startsWith ("Line " ++ toString k ++ ": " ++ rest) ("Line " ++ toString k ++ ":")
      = true := by
  have h : ("Line " ++ toString k ++ ": " ++ rest).toList
      = ("Line " ++ toString k ++ ":").toList ++ (' ' :: rest.toList) := by
    simp only [String.toList, String.data_append]
    simp
  rw [startsWith, h]
  exact List.isPrefixOf_iff_prefix.2 (List.prefix_append _ _)

end Options

/-- C20: `validateLines` returns as `valid` the trimmed texts of the lines that
are not blank and compile, in the order of the input, and as `invalid` one
entry for every line that is not blank and does not compile, in the order of
the input; the entry of the line at index `idx` begins with "Line k:" for
`k = idx + 1`.  Blank lines are in neither list, so the two lengths add up to
the number of lines that are not blank. -/
theorem C20_validateLines (H : Host) (message : String → String) (lines : List String) :
    (Options.validateLines H message lines).valid
      = (lines.map Options.trim).filter (fun t => t != "" && H.compiles (.str t)) ∧
    (Options.validateLines H message lines).invalid
      = (lines.enum.filter
          (fun p => Options.trim p.2 != "" && !H.compiles (.str (Options.trim p.2)))).map
          (fun p => "Line " ++ toString (p.1 + 1) ++ ": " ++ Options.trim p.2 ++ "\n  "
            ++ message (Options.trim p.2)) ∧
    (∀ e ∈ (Options.validateLines H message lines).invalid,
      ∃ (idx : Nat) (line : String), lines.get? idx = some line ∧
        Options.trim line ≠ "" ∧ H.compiles (.str (Options.trim line)) = false ∧
        startsWith e ("Line " ++ toString (idx + 1) ++ ":") = true) ∧
    (Options.validateLines H message lines).valid.length
      + (Options.validateLines H message lines).invalid.length
      = (lines.filter (fun l => Options.trim l != "")).length ∧
    Options.validateLines Example.host Example.message Example.lines
      = { valid := ["example\\.com", "b"],
          invalid := ["Line 3: (\n  Invalid regular expression: /(/"] } := by
  have hv := Options.validateFrom_valid H message lines { valid := [], invalid := [] } 0
  have hi := Options.validateFrom_invalid H message lines { valid := [], invalid := [] } 0
  simp only [List.nil_append] at hv hi
  refine ⟨hv, hi, ?_, ?_, by decide⟩
  · intro e he
    simp only [Options.validateLines] at he
    rw [hi] at he
    obtain ⟨p, hp, rfl⟩ := List.mem_map.1 he
    obtain ⟨hmem, hcond⟩ := List.mem_filter.1 hp
    obtain ⟨idx, line⟩ := p
    refine ⟨idx, line, ?_, ?_, ?_, ?_⟩
    · exact by simpa using List.mk_mem_enum_iff_getElem?.1 hmem
    · simp at hcond
      exact hcond.1
    · simp at hcond
      exact hcond.2
    · simp only [String.append_assoc]
      have := Options.startsWith_line (idx + 1)
        (Options.trim line ++ ("\n  " ++ message (Options.trim line)))
      simpa only [String.append_assoc] using this
  · have := Options.validateFrom_length H message lines { valid := [], invalid := [] } 0
    simpa [Options.validateLines] using this


end TabSweep
